import Mathlib

/-!
Verification of the plan/preview/apply engine of the xchangevault repository
(`src/rewriter.py`, `src/server.py`) against its natural-language specification.

The Python code is shallowly embedded:
* Python `str` values are Lean `String`s (operations restricted to the ASCII
  range, which covers every string the claims exercise); `bytes` values are
  the `Bytes` inductive below, which records whether the byte string is valid
  UTF-8 (`Bytes.text s`, identified with its decoded text — UTF-8
  encode/decode round-trips) or not (`Bytes.bin raw`).
* `float` arithmetic of `_calc_entropy` is modelled by exact real arithmetic
  (`Real.logb 2`), and the comparison against `4.5` is additionally given an
  exact integer form proved equivalent (`entropyGt_iff_natTest`).
* filesystem paths are lists of components; `Path.resolve()` is `resolvePath`
  (symlinks are not modelled); the filesystem is an explicit `FS` state.
* the `ThreadPoolExecutor` of `apply_plan` is modelled by sequential
  iteration over the actions in submission order, preserving the per-future
  exception handling (`future.result()` wrapped in `try/except` that appends
  an `ERR` line to the log); this is a linearization of the pool semantics.
-/

namespace XV

/-! ## Python string primitives (ASCII fragment) -/

/-- Python `str.replace(old, new)` on character lists: replace non-overlapping
occurrences left to right.  `fuel` is an upper bound on the number of steps;
`replaceList` instantiates it with the list length, which always suffices
because every step consumes at least one character.  (Python's behaviour for
an empty `old` — inserting `new` between characters — is not modelled; no
call site uses an empty pattern.) -/
def replaceAux (pat rep : List Char) : Nat → List Char → List Char
  | _, [] => []
  | 0, l => l
  | fuel + 1, c :: cs =>
    if pat ≠ [] ∧ pat.isPrefixOf (c :: cs) then
      rep ++ replaceAux pat rep fuel (List.drop (pat.length - 1) cs)
    else
      c :: replaceAux pat rep fuel cs

def replaceList (pat rep l : List Char) : List Char :=
  replaceAux pat rep l.length l

/-- Python `str.replace` on strings. -/
def strReplace (s pat rep : String) : String :=
  String.mk (replaceList pat.data rep.data s.data)

/-- Boolean sublist-at-some-position test. -/
def isInfixList (sub : List Char) : List Char → Bool
  | [] => sub.isEmpty
  | c :: cs => sub.isPrefixOf (c :: cs) || isInfixList sub cs

/-- Python `sub in s` (substring containment). -/
def strContains (s sub : String) : Bool :=
  isInfixList sub.data s.data

/-- Python `b.startswith(a)`: `strIsPrefixOf a b` tests that `a` is a
prefix of `b`.  (Char-list prefix coincides with byte prefix for UTF-8
strings.) -/
def strIsPrefixOf (a b : String) : Bool := a.data.isPrefixOf b.data

/-- Python whitespace test used by `str.strip()` (ASCII fragment). -/
def pySpace (c : Char) : Bool :=
  c = ' ' ∨ c = '\t' ∨ c = '\n' ∨ c = '\r' ∨ c = '\x0b' ∨ c = '\x0c'

/-- Python `str.strip()`: drop whitespace from both ends. -/
def pyStripList (l : List Char) : List Char :=
  ((l.dropWhile pySpace).reverse.dropWhile pySpace).reverse

def pyStrip (s : String) : String :=
  String.mk (pyStripList s.data)

def asciiLower (c : Char) : Bool := 'a' ≤ c ∧ c ≤ 'z'
def asciiUpper (c : Char) : Bool := 'A' ≤ c ∧ c ≤ 'Z'
def asciiDigit (c : Char) : Bool := '0' ≤ c ∧ c ≤ '9'
def asciiAlpha (c : Char) : Bool := asciiLower c || asciiUpper c

/-- Python `str.lower()` (ASCII). -/
def pyLower (s : String) : String := String.mk (s.data.map Char.toLower)

/-- Python `str.upper()` (ASCII). -/
def pyUpper (s : String) : String := String.mk (s.data.map Char.toUpper)

/-- Python `str.title()` (ASCII): the first letter of every run of letters is
uppercased and the rest lowercased; non-letters separate the runs. -/
def pyTitleAux : Bool → List Char → List Char
  | _, [] => []
  | prevCased, c :: cs =>
    if asciiAlpha c then
      (if prevCased then c.toLower else c.toUpper) :: pyTitleAux true cs
    else
      c :: pyTitleAux false cs

def pyTitle (s : String) : String := String.mk (pyTitleAux false s.data)

/-- Python `str.isupper()`: at least one cased character, and no cased
character is lowercase. -/
def pyIsUpper (s : String) : Bool :=
  s.data.any asciiAlpha && s.data.all (fun c => !(asciiLower c))

/-- Python `str.islower()`. -/
def pyIsLower (s : String) : Bool :=
  s.data.any asciiAlpha && s.data.all (fun c => !(asciiUpper c))

/-- Python `str.istitle()`: uppercase letters only follow uncased characters,
lowercase letters only follow cased ones, and at least one cased character
exists. -/
def pyIsTitleAux : Bool → List Char → Bool
  | _, [] => true
  | prevCased, c :: cs =>
    if asciiUpper c then !prevCased && pyIsTitleAux true cs
    else if asciiLower c then prevCased && pyIsTitleAux true cs
    else pyIsTitleAux false cs

def pyIsTitle (s : String) : Bool :=
  s.data.any asciiAlpha && pyIsTitleAux false s.data

/-! ## Entropy (`_calc_entropy`, `_is_high_entropy`, rewriter.py lines 40-64) -/

/-- The values of the `freq` dictionary built by `_calc_entropy`: one
occurrence count per distinct character of the string. -/
def countsOf (l : List Char) : List Nat :=
  l.dedup.map (fun c => l.count c)

/-- `_calc_entropy(s)` for non-empty `s`, with the float arithmetic made
exact: `-sum((count / n) * log2(count / n) for count in freq.values())`.
(`_calc_entropy` special-cases the empty string to `0.0`; `entropyReal []`
is also `0`, so the two agree everywhere.) -/
noncomputable def entropyReal (l : List Char) : ℝ :=
  -(((countsOf l).map
      (fun c : ℕ => ((c : ℝ) / (l.length : ℝ)) * Real.logb 2 ((c : ℝ) / (l.length : ℝ)))).sum)

/-- Exact integer form of the float test `_calc_entropy(value) > 4.5`:
see `entropyGt_iff_natTest` for the proof that it is equivalent. -/
def entropyGtNat (l : List Char) : Bool :=
  decide (2 ^ (9 * l.length) * ((countsOf l).map (fun c => c ^ (2 * c))).prod
            < l.length ^ (2 * l.length))

theorem sum_div_logb_div (L : List ℕ) (n : ℝ) (hn : 0 < n) (hL : ∀ x ∈ L, 0 < x) :
    ((L.map (fun c : ℕ => ((c : ℝ) / n) * Real.logb 2 ((c : ℝ) / n))).sum)
      = (1 / n) * ((L.map (fun c : ℕ => (c : ℝ) * Real.logb 2 (c : ℝ))).sum)
        - ((L.sum : ℝ) / n) * Real.logb 2 n := by
  induction L with
  | nil => simp
  | cons c L ih =>
    have hc : 0 < (c : ℝ) := by exact_mod_cast hL c (List.mem_cons_self c L)
    have hrest : ∀ x ∈ L, 0 < x := fun x hx => hL x (List.mem_cons_of_mem c hx)
    have hdiv : Real.logb 2 ((c : ℝ) / n)
        = Real.logb 2 (c : ℝ) - Real.logb 2 n :=
      Real.logb_div (ne_of_gt hc) (ne_of_gt hn)
    have hn' : n ≠ 0 := ne_of_gt hn
    simp only [List.map_cons, List.sum_cons]
    rw [ih hrest, hdiv, Nat.cast_add]
    field_simp
    ring

theorem logb_prod_pow (L : List ℕ) (hL : ∀ x ∈ L, 0 < x) :
    Real.logb 2 (((L.map (fun c => c ^ (2 * c))).prod : ℕ) : ℝ)
      = ((L.map (fun c : ℕ => (2 * (c : ℝ)) * Real.logb 2 (c : ℝ))).sum) := by
  induction L with
  | nil => simp
  | cons c L ih =>
    have hc : 0 < (c : ℝ) := by exact_mod_cast hL c (List.mem_cons_self c L)
    have hrest : ∀ x ∈ L, 0 < x := fun x hx => hL x (List.mem_cons_of_mem c hx)
    have hcpow : ((c : ℝ) ^ (2 * c)) ≠ 0 := pow_ne_zero _ (ne_of_gt hc)
    have hprodpos : 0 < ((L.map (fun c => c ^ (2 * c))).prod : ℕ) := by
      apply List.prod_pos
      intro x hx
      rcases List.mem_map.mp hx with ⟨y, hy, rfl⟩
      exact pow_pos (hrest y hy) _
    have hprodne : (((L.map (fun c => c ^ (2 * c))).prod : ℕ) : ℝ) ≠ 0 := by
      exact_mod_cast ne_of_gt hprodpos
    have hcpow2 : ((c ^ (2 * c) : ℕ) : ℝ) ≠ 0 := by
      have : (0 : ℕ) < c ^ (2 * c) := pow_pos (hL c (List.mem_cons_self c L)) _
      exact_mod_cast ne_of_gt this
    simp only [List.map_cons, List.prod_cons, List.sum_cons]
    rw [Nat.cast_mul, Real.logb_mul hcpow2 hprodne, ih hrest, Nat.cast_pow,
      Real.logb_pow]
    push_cast
    ring

theorem entropyGt_iff_natTest (l : List Char) (hne : l ≠ []) :
    (4.5 : ℝ) < entropyReal l ↔ entropyGtNat l = true := by
  have hpos : ∀ x ∈ countsOf l, 0 < x := by
    intro x hx
    rcases List.mem_map.mp hx with ⟨c, hc, rfl⟩
    exact List.count_pos_iff.mpr (List.mem_dedup.mp hc)
  have hsum : (countsOf l).sum = l.length := List.sum_map_count_dedup_eq_length l
  have hNpos : 0 < l.length := List.length_pos.mpr hne
  have hn : (0 : ℝ) < (l.length : ℝ) := by exact_mod_cast hNpos
  set L := countsOf l with hLdef
  set N := l.length with hNdef
  -- Rewrite the entropy sum into `logb 2 N - S / N`.
  have h1 : entropyReal l
      = ((N : ℝ)) / (N : ℝ) * Real.logb 2 (N : ℝ)
        - (1 / (N : ℝ)) * ((L.map (fun c : ℕ => (c : ℝ) * Real.logb 2 (c : ℝ))).sum) := by
    unfold entropyReal
    rw [sum_div_logb_div L (N : ℝ) hn hpos, hsum]
    ring
  have h2 : entropyReal l
      = Real.logb 2 (N : ℝ)
        - (1 / (N : ℝ)) * ((L.map (fun c : ℕ => (c : ℝ) * Real.logb 2 (c : ℝ))).sum) := by
    rw [h1, div_self (ne_of_gt hn), one_mul]
  set S := ((L.map (fun c : ℕ => (c : ℝ) * Real.logb 2 (c : ℝ))).sum) with hSdef
  have hP : 0 < (L.map (fun c => c ^ (2 * c))).prod := by
    apply List.prod_pos
    intro x hx
    rcases List.mem_map.mp hx with ⟨y, hy, rfl⟩
    exact pow_pos (hpos y hy) _
  -- Chain of equivalences down to the integer comparison.
  have key : (1 / (N : ℝ)) * S * (N : ℝ) = S := by
    field_simp
  have step1 : (4.5 : ℝ) < entropyReal l ↔
      9 * (N : ℝ) + 2 * S < 2 * (N : ℝ) * Real.logb 2 (N : ℝ) := by
    rw [h2]
    constructor
    · intro h
      have h' := (mul_lt_mul_of_pos_right h hn)
      rw [sub_mul, key] at h'
      nlinarith [h']
    · intro h
      have h' : (4.5 : ℝ) * (N : ℝ)
          < (Real.logb 2 (N : ℝ) - 1 / (N : ℝ) * S) * (N : ℝ) := by
        rw [sub_mul, key]
        nlinarith [h]
      exact lt_of_mul_lt_mul_right h' (le_of_lt hn)
  have e2S : Real.logb 2 (((L.map (fun c => c ^ (2 * c))).prod : ℕ) : ℝ) = 2 * S := by
    rw [logb_prod_pow L hpos]
    have hfn : (fun c : ℕ => (2 * (c : ℝ)) * Real.logb 2 (c : ℝ))
        = (fun c : ℕ => 2 * ((c : ℝ) * Real.logb 2 (c : ℝ))) := by
      funext c
      ring
    rw [hfn, List.sum_map_mul_left]
  have e9N : 9 * (N : ℝ) = Real.logb 2 (((2 ^ (9 * N) : ℕ) : ℝ)) := by
    rw [Nat.cast_pow, Nat.cast_ofNat, Real.logb_pow,
      Real.logb_self_eq_one (by norm_num : (1:ℝ) < 2), mul_one]
    push_cast
    ring
  have eRight : 2 * (N : ℝ) * Real.logb 2 (N : ℝ)
      = Real.logb 2 (((N ^ (2 * N) : ℕ) : ℝ)) := by
    rw [Nat.cast_pow, Real.logb_pow]
    push_cast
    ring
  have hA : (0 : ℝ) < ((2 ^ (9 * N) : ℕ) : ℝ) * ((L.map (fun c => c ^ (2 * c))).prod : ℕ) := by
    have : (0 : ℕ) < 2 ^ (9 * N) * (L.map (fun c => c ^ (2 * c))).prod :=
      Nat.mul_pos (Nat.pos_pow_of_pos _ (by norm_num)) hP
    exact_mod_cast this
  have hB : (0 : ℝ) < ((N ^ (2 * N) : ℕ) : ℝ) := by
    have : (0 : ℕ) < N ^ (2 * N) := Nat.pos_pow_of_pos _ hNpos
    exact_mod_cast this
  have step2 : 9 * (N : ℝ) + 2 * S < 2 * (N : ℝ) * Real.logb 2 (N : ℝ)
      ↔ 2 ^ (9 * N) * (L.map (fun c => c ^ (2 * c))).prod < N ^ (2 * N) := by
    rw [← e2S, e9N, eRight]
    have hPne : (((L.map (fun c => c ^ (2 * c))).prod : ℕ) : ℝ) ≠ 0 := by
      exact_mod_cast ne_of_gt hP
    have hAne : (((2 ^ (9 * N) : ℕ) : ℝ)) ≠ 0 := by
      have : (0:ℕ) < 2 ^ (9 * N) := Nat.pos_pow_of_pos _ (by norm_num)
      exact_mod_cast ne_of_gt this
    rw [← Real.logb_mul hAne hPne]
    rw [Real.logb_lt_logb_iff (by norm_num : (1:ℝ) < 2) hA hB]
    constructor
    · intro h
      exact_mod_cast h
    · intro h
      exact_mod_cast h
  rw [step1, step2]
  unfold entropyGtNat
  rw [decide_eq_true_eq]

/-! ## Secret scrubber (`_is_high_entropy`, `_scrub_entropy_secrets`,
rewriter.py lines 50-79) -/

/-- The number of the four character classes `{lowercase, uppercase, digit,
symbol}` present in `value` — the `classes` counter of `_is_high_entropy`
(`[^a-zA-Z0-9]` is "symbol"). -/
def classCount (v : String) : ℕ :=
  (if v.data.any asciiLower then 1 else 0)
  + (if v.data.any asciiUpper then 1 else 0)
  + (if v.data.any asciiDigit then 1 else 0)
  + (if v.data.any (fun c => !(asciiLower c || asciiUpper c || asciiDigit c)) then 1 else 0)

/-- `_is_high_entropy(value)`: entropy above `4.5` (exact integer form of the
comparison, see `entropyGt_iff_natTest`), length strictly above 20, and at
least 2 character classes. -/
def isHighEntropy (v : String) : Bool :=
  if !(entropyGtNat v.data) then false
  else if v.data.length ≤ 20 then false
  else 2 ≤ classCount v

/-- The replacement performed by the `repl` closure of
`_scrub_entropy_secrets` on one match of `_ASSIGN_RE`, with the match given
by its three groups: `g1` (key, separator and opening quote), `g2` (the
quoted value, at least 20 characters drawn from `[^"\x27]`), `g3` (the
closing quote).  Returns the replacement text and the hit descriptions
appended for this match. -/
def scrubEntropyMatch (g1 g2 g3 : String) : String × List String :=
  if isHighEntropy g2 then
    (g1 ++ "REDACTED" ++ g3, [pyStrip g1 ++ "... (entropy redacted)"])
  else
    (g1 ++ g2 ++ g3, [])

/-- A decomposition of an input text by the `_ASSIGN_RE` matcher: literal
stretches between matches, and matches given by their three groups. -/
inductive Seg where
  | lit (s : String)
  | assign (g1 g2 g3 : String)
deriving DecidableEq

/-- `_scrub_entropy_secrets` over a matcher decomposition of the text:
`_ASSIGN_RE.sub(repl, text)` rebuilds the text replacing each match and
collects the `hits` list in match order. -/
def scrubEntropySegs (segs : List Seg) : String × List String :=
  segs.foldl
    (fun acc seg =>
      match seg with
      | .lit s => (acc.1 ++ s, acc.2)
      | .assign g1 g2 g3 =>
        let r := scrubEntropyMatch g1 g2 g3
        (acc.1 ++ r.1, acc.2 ++ r.2))
    ("", [])

/-- The facts `_ASSIGN_RE` guarantees about any match it produces: the first
group ends with a quote character and the value contains no quote
character. -/
def quoteChar (c : Char) : Bool := c = Char.ofNat 34 || c = Char.ofNat 39

def matchShape (g1 g2 _g3 : String) : Bool :=
  (match g1.data.getLast? with
   | some c => quoteChar c
   | none => false)
  && g2.data.all (fun c => !quoteChar c)

/-! ## Brand substitution (`_brand_variants`, `_apply_brand_map`,
rewriter.py lines 105-131) -/

/-- Strict lexicographic comparison on character lists (Python `str <`
restricted to ASCII, where code-point order is `Char` order). -/
def lexLt : List Char → List Char → Bool
  | [], [] => false
  | [], _ :: _ => true
  | _ :: _, [] => false
  | a :: as, b :: bs => if a < b then true else if b < a then false else lexLt as bs

/-- The sort key `(-len(x), x)` of `_brand_variants`: longer strings first,
ties broken by lexicographic order. -/
def variantBefore (a b : String) : Bool :=
  if a.data.length = b.data.length then !(lexLt b.data a.data)
  else b.data.length < a.data.length

def insertSortedVariant (a : String) : List String → List String
  | [] => [a]
  | b :: bs => if variantBefore a b then a :: b :: bs else b :: insertSortedVariant a bs

def sortVariants : List String → List String
  | [] => []
  | a :: as => insertSortedVariant a (sortVariants as)

/-- `_brand_variants(token)`: the set `{token, lower, upper, title}`, sorted
longest-first (ties lexicographic).  The Python `set` is modelled by
`dedup`; since the sort key is injective the iteration order of the set does
not affect the sorted result. -/
def brandVariants (token : String) : List String :=
  sortVariants ([token, pyLower token, pyUpper token, pyTitle token].dedup)

/-- One `{from, to}` entry of a brand map.  (JSON fields `from`/`to`; a
missing or null field is already coerced to `""` by the `or ""` in the
code.) -/
structure BrandItem where
  fromTok : String
  toTok : String
deriving DecidableEq

/-- The case-shape dispatch of `_apply_brand_map`: which form of `new` is
substituted for the variant `var`. -/
def brandNewVar (var new : String) : String :=
  if pyIsUpper var then pyUpper new
  else if pyIsTitle var then pyTitle new
  else if pyIsLower var then pyLower new
  else new

/-- `_apply_brand_map(text, brand_map)`. -/
def applyBrandMap (text : String) (brandMap : List BrandItem) : String :=
  brandMap.foldl
    (fun replaced item =>
      let old := pyStrip item.fromTok
      let new := pyStrip item.toTok
      if old = "" then replaced
      else
        (brandVariants old).foldl
          (fun acc var => strReplace acc var (brandNewVar var new))
          replaced)
    text

/-! ## Byte transformer (`transform_bytes`, rewriter.py lines 147-203) -/

/-- A byte string, classified by UTF-8 decodability: `text s` is a byte
string that decodes to `s` (and is recovered by encoding `s`, since UTF-8
encode/decode round-trips); `bin raw` is one whose decoding raises
`UnicodeDecodeError`. -/
inductive Bytes where
  | text (s : String)
  | bin (raw : List Nat)
deriving DecidableEq

/-- The two shapes a `transform_bytes` call can return: the bare `data`
object of the early non-UTF-8 `return data`, or the
`(text.encode(\x27utf-8\x27), crlf_normalized)` pair of the text path. -/
inductive TransformResult where
  | raw (d : Bytes)
  | pair (d : Bytes) (flag : Bool)
deriving DecidableEq

def TransformResult.isPair : TransformResult → Bool
  | .raw _ => false
  | .pair _ _ => true

/-- Pieces of rewriter.py that no claim exercises, passed as explicit
parameters so that nothing about them is assumed: the `package.json` JSON
rewrite (lines 156-173), the `pyproject.toml` name rewrite (lines 175-183),
and the two full-text scrubbing passes `_scrub_secrets` /
`_scrub_entropy_secrets` as applied to a whole file (lines 190-192; the
entropy pass is modelled per match by `scrubEntropyMatch` above).  Every
theorem below either quantifies over these or disables the branch that uses
them, so no result depends on their behaviour. -/
structure Hooks where
  metaPkgJson : String → String
  metaPyproject : String → String
  scrubPatternPass : String → String
  scrubEntropyPass : String → String

/-- Hooks that leave the text unchanged, used to evaluate concrete inputs
whose file name and settings make every hooked branch dead. -/
def trivHooks : Hooks :=
  ⟨id, id, id, id⟩

/-- `transform_bytes(path, data, brand_map, scrub_secrets,
normalize_line_endings, template_vars)`.  `name` is `path.name`.  Template
variables are an association list in dictionary iteration (insertion)
order. -/
def transform_bytes (hooks : Hooks) (name : String) (data : Bytes)
    (brandMap : List BrandItem) (scrubSecrets : Bool)
    (normalizeLineEndings : Bool) (templateVars : List (String × String)) :
    TransformResult :=
  match data with
  | .bin raw => .raw (.bin raw)
  | .text t0 =>
    let t1 := if name = "package.json" then hooks.metaPkgJson t0 else t0
    let t2 := if name = "pyproject.toml" then hooks.metaPyproject t1 else t1
    let t3 := if brandMap ≠ [] then applyBrandMap t2 brandMap else t2
    let t4 := if scrubSecrets then hooks.scrubEntropyPass (hooks.scrubPatternPass t3)
              else t3
    let p :=
      if normalizeLineEndings ∧ strContains t4 "\r\n" then
        (strReplace t4 "\r\n" "\n", true)
      else
        (t4, false)
    let t6 := templateVars.foldl
      (fun acc kv => strReplace acc ("\x7b\x7b" ++ kv.1 ++ "\x7d\x7d") kv.2) p.1
    .pair (.text t6) p.2

/-! ## Paths and the filesystem -/

/-- An absolute filesystem path as its list of components (`[]` is `/`). -/
abbrev FsPath := List String

/-- `str(path)` for an absolute path. -/
def renderPath (p : FsPath) : String :=
  "/" ++ String.intercalate "/" p

/-- `Path.resolve()` without symlinks: process `.` and `..` components left
to right (`..` at the root stays at the root, as on POSIX). -/
def resolveStep (acc : FsPath) (c : String) : FsPath :=
  if c = "." then acc
  else if c = ".." then acc.dropLast
  else acc ++ [c]

def resolvePath (p : FsPath) : FsPath :=
  p.foldl resolveStep []

/-- Splitting a character list at every occurrence of `sep` (the list-level
form of `str.split(sep)`). -/
def splitOnCharList (sep : Char) : List Char → List (List Char)
  | [] => [[]]
  | c :: cs =>
    match splitOnCharList sep cs with
    | [] => if c = sep then [[], []] else [[c]]
    | h :: t => if c = sep then [] :: h :: t else (c :: h) :: t

/-- `PurePath / s`: appending a string segment splits it on `/` (empty
pieces are dropped, so `a//b` gives two components); a segment starting
with `/` replaces the whole path, as in pathlib. -/
def splitSegs (s : String) : List String :=
  ((splitOnCharList '/' s.data).map String.mk).filter (fun c => c ≠ "")

def pathJoin (p : FsPath) (s : String) : FsPath :=
  if s.data.head? = some '/' then splitSegs s else p ++ splitSegs s

/-- `PurePath.relative_to`: succeeds only when `base` is a componentwise
prefix, otherwise raises `ValueError`. -/
def relativeTo (p base : FsPath) : Except String FsPath :=
  if base.isPrefixOf p then .ok (p.drop base.length)
  else .error (renderPath p ++ " is not in the subpath of " ++ renderPath base)

/-- `path.name`: the last component (empty for the root). -/
def pathName (p : FsPath) : String := p.getLastD ""

/-- Filesystem state: the set of directories and the files with their
contents, all keyed by absolute resolved paths. -/
structure FS where
  dirs : List FsPath
  files : List (FsPath × Bytes)
deriving DecidableEq

def FS.isDir (fs : FS) (p : FsPath) : Bool := fs.dirs.contains p

def FS.read (fs : FS) (p : FsPath) : Option Bytes :=
  (fs.files.find? (fun e => e.1 == p)).map (·.2)

def FS.isFile (fs : FS) (p : FsPath) : Bool := (fs.read p).isSome

def FS.exists (fs : FS) (p : FsPath) : Bool := fs.isDir p || fs.isFile p

/-- `any(p.iterdir())`: some directory or file lies strictly below `p`. -/
def FS.hasEntry (fs : FS) (p : FsPath) : Bool :=
  fs.dirs.any (fun d => p.isPrefixOf d && p.length < d.length)
  || fs.files.any (fun e => p.isPrefixOf e.1 && p.length < e.1.length)

/-- `p.mkdir(parents=True, exist_ok=True)`: create `p` and its ancestors. -/
def FS.mkdirParents (fs : FS) (p : FsPath) : FS :=
  { fs with dirs := ((List.range (p.length + 1)).map (fun k => p.take k)) ++ fs.dirs }

/-- Write (create or overwrite) a file. -/
def FS.write (fs : FS) (p : FsPath) (b : Bytes) : FS :=
  { fs with files := (p, b) :: fs.files.filter (fun e => !(e.1 == p)) }

/-- `is_binary(path)` (rewriter.py lines 82-95), as a function of the
attempted read of the file's first chunk: `none` models `open`/`read`
raising (the file is missing or unreadable), in which case the bare
`except Exception` returns `False`; otherwise the chunk is binary iff it
contains a NUL byte or fails UTF-8 decoding.  (The 8 KiB truncation is not
modelled: a `Bytes` value stands for the whole read, so its decodability is
that of the entire content.) -/
def is_binary (readResult : Option Bytes) : Bool :=
  match readResult with
  | none => false
  | some (.text s) => s.data.contains (Char.ofNat 0)
  | some (.bin _) => true

/-! ## Plan builder (`build_plan`, rewriter.py lines 206-301) -/

/-- One element of a plan's `actions` list (`kind` is the `type` key). -/
structure ActionRec where
  kind : String
  src : FsPath
  dst : FsPath
  text_transform : Bool
deriving DecidableEq

/-- One structural-rewrite rule descriptor (opaque to the core; `tool`,
`match`, `rewrite`, `matcher` keys, missing values already coerced to
`""`). -/
structure PatternRec where
  tool : String
  matchTemplate : String
  rewriteTemplate : String
  matcher : String
deriving DecidableEq

/-- The Plan document.  `fix_py`/`fix_js` are the `fix_imports` flags the
HTTP handler adds after `build_plan` returns (absent = false).  The
`previews` field (built read-only by `_build_previews` and never consulted
by `apply_plan`) is not modelled; no claim refers to it and it does not
affect `actions` or `warnings`. -/
structure Plan where
  source_root : FsPath
  dest_base : FsPath
  dest_root : FsPath
  new_project_name : String
  old_brand : String
  new_brand : String
  scrub_secrets : Bool
  brand_map : List BrandItem
  actions : List ActionRec
  warnings : List String
  patterns : List PatternRec
  normalize_line_endings : Bool
  generate_changelog : Bool
  template_vars : List (String × String)
  workers : Nat
  fix_py : Bool
  fix_js : Bool
deriving DecidableEq

/-- Brand-map normalization of `build_plan`: an explicit non-empty list is
trimmed (entries with blank `from` dropped), otherwise a single
`old_brand`/`new_brand` pair is synthesized when both are non-empty. -/
def normalizeBrandMap (brandMap : List BrandItem) (oldBrand newBrand : String) :
    List BrandItem :=
  if brandMap ≠ [] then
    brandMap.foldr
      (fun it acc =>
        if pyStrip it.fromTok ≠ "" then ⟨pyStrip it.fromTok, pyStrip it.toTok⟩ :: acc
        else acc)
      []
  else if oldBrand ≠ "" ∧ newBrand ≠ "" then [⟨oldBrand, newBrand⟩]
  else []

/-- `{**auto_vars, **(template_vars or {})}`: user entries win on key
collision; auto keys keep their position, user-only keys follow in user
order. -/
def mergeVars (auto user : List (String × String)) : List (String × String) :=
  (auto.map (fun kv => (kv.1, ((user.lookup kv.1).getD kv.2))))
  ++ user.filter (fun kv => !(auto.any (fun av => av.1 == kv.1)))

/-- The directory names pruned during `os.walk` expansion. -/
def pruneSet : List String :=
  [".git", "node_modules", "dist", "build", ".cache", "__pycache__", ".venv", "venv"]

/-- The files `os.walk(src)` yields (with the pruned directories removed
from traversal; a *file* named like a pruned directory is kept, since only
`dirs` is filtered).  Order of traversal is the file-table order; no claim
depends on the order of actions. -/
def walkFiles (fs : FS) (src : FsPath) : List FsPath :=
  (fs.files.map (·.1)).filter
    (fun p => src.isPrefixOf p && src.length < p.length
      && ((p.drop src.length).dropLast.all (fun d => !(pruneSet.contains d))))

/-- Build one copy action for a file at `rel2` below the source root:
`dst = str((dest_root / rel2).relative_to(dest_base))`. -/
def mkCopyAction (dest_base dest_root : FsPath) (rel2 : FsPath) :
    Except String ActionRec :=
  match relativeTo (dest_root ++ rel2) dest_base with
  | .error e => .error e
  | .ok d => .ok ⟨"copy", rel2, d, true⟩

/-- The effect of a Python `for` loop building a list, with exceptions
propagating: map in order, stopping at the first error. -/
def mapMExcept (f : α → Except String β) : List α → Except String (List β)
  | [] => .ok []
  | x :: xs =>
    match f x with
    | .error e => .error e
    | .ok y =>
      match mapMExcept f xs with
      | .error e => .error e
      | .ok ys => .ok (y :: ys)

/-- The effect of a Python `for` loop threading an accumulator, with
exceptions propagating. -/
def foldlMExcept (f : γ → α → Except String γ) : γ → List α → Except String γ
  | acc, [] => .ok acc
  | acc, x :: xs =>
    match f acc x with
    | .error e => .error e
    | .ok acc2 => foldlMExcept f acc2 xs

/-- Processing of one selected relative path inside the loop of
`build_plan`: accumulates actions and warnings; a `relative_to` failure
propagates as an exception out of `build_plan`. -/
def processInclude (fs : FS) (source_root dest_base dest_root : FsPath)
    (acc : List ActionRec × List String) (rel : String) :
    Except String (List ActionRec × List String) :=
  let src := resolvePath (pathJoin source_root rel)
  if !(strIsPrefixOf (renderPath source_root) (renderPath src)) then
    .ok (acc.1, acc.2 ++ ["Skipping path outside source: " ++ renderPath src])
  else if !(fs.exists src) then
    .ok (acc.1, acc.2 ++ ["Missing path: " ++ rel])
  else if fs.isDir src then
    match mapMExcept
        (fun p =>
          match relativeTo p source_root with
          | .error e => .error e
          | .ok rel2 => mkCopyAction dest_base dest_root rel2)
        (walkFiles fs src) with
    | .error e => .error e
    | .ok acts => .ok (acc.1 ++ acts, acc.2)
  else
    match relativeTo src source_root with
    | .error e => .error e
    | .ok rel2 =>
      match mkCopyAction dest_base dest_root rel2 with
      | .error e => .error e
      | .ok act => .ok (acc.1 ++ [act], acc.2)

/-- `build_plan(...)`.  `todayDate`/`todayYear` stand for
`date.today()`. -/
def build_plan (fs : FS) (todayDate todayYear : String)
    (source_root_raw : FsPath) (include_rel_paths : List String)
    (dest_base_raw : FsPath) (new_project_name : String)
    (old_brand new_brand : String) (scrub_secrets : Bool)
    (brand_map : List BrandItem) (patterns : List PatternRec)
    (normalize_line_endings generate_changelog : Bool)
    (template_vars : List (String × String)) (workers : Nat) :
    Except String Plan :=
  let source_root := resolvePath source_root_raw
  let dest_base := resolvePath dest_base_raw
  let dest_root := pathJoin dest_base new_project_name
  let bm := normalizeBrandMap brand_map old_brand new_brand
  let merged := mergeVars
    [("PROJECT_NAME", new_project_name), ("DATE", todayDate),
     ("YEAR", todayYear), ("SOURCE_PROJECT", pathName source_root)]
    template_vars
  match foldlMExcept (processInclude fs source_root dest_base dest_root)
      ([], []) include_rel_paths with
  | .error e => .error e
  | .ok aw =>
    .ok { source_root := source_root, dest_base := dest_base,
          dest_root := dest_root, new_project_name := new_project_name,
          old_brand := old_brand, new_brand := new_brand,
          scrub_secrets := scrub_secrets, brand_map := bm,
          actions := aw.1, warnings := aw.2, patterns := patterns,
          normalize_line_endings := normalize_line_endings,
          generate_changelog := generate_changelog,
          template_vars := merged, workers := workers,
          fix_py := false, fix_js := false }

/-! ## Apply executor (`apply_plan`, `_process_action`, rewriter.py
lines 304-448) -/

/-- The `ApplyResult` dictionary (`"ok": True` is a literal in the
source). -/
structure ApplyResult where
  ok : Bool
  copied : Nat
  transformed : Nat
  crlf_normalized : Nat
  dest_root : String
  log : List String
  warnings : List String
deriving DecidableEq

/-- The mutable state of one apply run: the filesystem, the shared log and
the three lock-protected counters. -/
structure ApplySt where
  fs : FS
  log : List String
  copied : Nat
  transformed : Nat
  crlf : Nat
deriving DecidableEq

/-- The import-fixing passes `_fix_python_imports` / `_fix_js_imports`
(rewriter.py lines 562-640), passed as parameters: no claim exercises them
and every concrete plan below has both `fix_imports` flags false. -/
structure FixHooks where
  fixPyImports : FS → FS × List String
  fixJsImports : FS → FS × List String

def trivFixHooks : FixHooks :=
  ⟨fun fs => (fs, []), fun fs => (fs, [])⟩

/-- The relative-path string of an action as stored in the plan
(slash-joined). -/
def renderRel (p : FsPath) : String := String.intercalate "/" p

/-- `_process_action(act)`: an `Except.error` models an exception escaping
the worker (to be caught at `future.result()` by the caller).  The
`cancel` flag is the value `cancel_checker()` returns (no claim exercises
cancellation mid-run, so it is constant for a run). -/
def processAction (hooks : Hooks) (source_root dest_base dest_root : FsPath)
    (brandMap : List BrandItem) (scrubSecrets normalizeLineEndings : Bool)
    (templateVars : List (String × String)) (cancel : Bool)
    (st : ApplySt) (act : ActionRec) : Except String ApplySt :=
  if cancel then
    .ok { st with log := st.log ++ ["CANCEL requested; stopping apply"] }
  else
    let src_file := resolvePath (source_root ++ act.src)
    let dst_file := resolvePath (dest_base ++ act.dst)
    -- Safety: ensure dst within dest_root (string-prefix test, as in the
    -- source's `str(dst_file).startswith(str(dest_root))`).
    if !(strIsPrefixOf (renderPath dest_root) (renderPath dst_file)) then
      .error ("Refusing to write outside destination root: " ++ renderPath dst_file)
    else
      let st := { st with fs := st.fs.mkdirParents dst_file.dropLast }
      if st.fs.isDir src_file then .ok st
      else if is_binary (st.fs.read src_file) then
        match st.fs.read src_file with
        | some b =>
          .ok { st with
                fs := st.fs.write dst_file b,
                log := st.log ++ ["BIN  " ++ renderRel act.src ++ " -> " ++ renderRel act.dst],
                copied := st.copied + 1 }
        | none => .error "copy2 failed"  -- unreachable: is_binary none = false
      else
        match st.fs.read src_file with
        | none =>
          -- `src_file.read_bytes()` raised (missing/unreadable file).
          .error ("No such file or directory: " ++ renderPath src_file)
        | some data =>
          match transform_bytes hooks (pathName src_file) data brandMap
              scrubSecrets normalizeLineEndings templateVars with
          | .raw _ =>
            -- the bare-bytes return of transform_bytes does not unpack into
            -- `new_data, was_crlf` (ValueError); unreachable here because
            -- is_binary has already routed undecodable reads to the binary
            -- branch.
            .error "cannot unpack bytes returned by transform_bytes"
          | .pair newData flag =>
            .ok { st with
                  fs := st.fs.write dst_file newData,
                  log := st.log ++ ["TEXT " ++ renderRel act.src ++ " -> " ++ renderRel act.dst],
                  copied := st.copied + 1,
                  transformed := st.transformed + (if newData ≠ data then 1 else 0),
                  crlf := st.crlf + (if flag then 1 else 0) }

/-- The log lines `_run_patterns` emits for one rule, with the external
tools (`comby`, `ast-grep`) modelled as not installed — their presence and
effect are environment facts outside the repository; no claim exercises
them and every concrete plan below has an empty pattern list. -/
def patternSkipLines (p : PatternRec) : List String :=
  if pyLower p.tool = "comby" then
    if p.matchTemplate = "" then [] else ["SKIP patterns: \x27comby\x27 not found"]
  else if pyLower p.tool = "ast-grep" then ["SKIP patterns: \x27ast-grep\x27 not found"]
  else []

def pyBoolRepr (b : Bool) : String := if b then "True" else "False"

/-- Python `repr` of the normalized brand-map list of dicts. -/
def brandMapRepr (bm : List BrandItem) : String :=
  "[" ++ String.intercalate ", "
    (bm.map (fun b =>
      "\x7b\x27from\x27: \x27" ++ b.fromTok ++ "\x27, \x27to\x27: \x27" ++ b.toTok ++ "\x27\x7d"))
  ++ "]"

/-- `generate_changelog(plan, result)` with `now` standing for
`datetime.now().strftime(\x27%Y-%m-%d %H:%M\x27)`. -/
def changelogText (now : String) (plan : Plan) (result : ApplyResult) : String :=
  String.intercalate "\n"
    [ "## [" ++ now ++ "] Extraction",
      "- **Source**: " ++ renderPath (resolvePath plan.source_root),
      "- **Destination**: " ++ renderPath (resolvePath plan.dest_root),
      "- **Files copied**: " ++ toString result.copied,
      "- **Files transformed**: " ++ toString result.transformed,
      "- **CRLF normalized**: " ++ toString result.crlf_normalized,
      "- **Brand map**: " ++ brandMapRepr plan.brand_map,
      "- **Scrub secrets**: " ++ pyBoolRepr plan.scrub_secrets,
      "- **Patterns**: " ++ toString plan.patterns.length ++ " pattern(s)",
      "" ]

/-- `apply_plan(plan, progress_cb, cancel_checker)`: returns the final
filesystem plus either the `ApplyResult` or the message of an uncaught
exception (the state component is the filesystem at the moment the
exception escapes).  The worker pool is modelled as sequential iteration in
submission order with each action's exception turned into an `ERR` log
line, exactly as the `as_completed`/`future.result()` loop does. -/
def apply_plan (hooks : Hooks) (fix : FixHooks) (now : String) (cancel : Bool)
    (plan : Plan) (fs : FS) : FS × Except String ApplyResult :=
  let source_root := resolvePath plan.source_root
  let dest_base := resolvePath plan.dest_base
  let dest_root := resolvePath plan.dest_root
  let pre : Except String FS :=
    if fs.exists dest_root then
      if !(fs.isDir dest_root) then
        .error ("Not a directory: " ++ renderPath dest_root)
      else if fs.hasEntry dest_root then
        .error ("Destination already exists and is not empty: " ++ renderPath dest_root)
      else .ok fs
    else .ok (fs.mkdirParents dest_root)
  match pre with
  | .error e => (fs, .error e)
  | .ok fs0 =>
    let st0 : ApplySt := ⟨fs0, [], 0, 0, 0⟩
    let st1 := plan.actions.foldl
      (fun st act =>
        match processAction hooks source_root dest_base dest_root
            plan.brand_map plan.scrub_secrets plan.normalize_line_endings
            plan.template_vars cancel st act with
        | .ok st' => st'
        | .error e => { st with log := st.log ++ ["ERR " ++ e] })
      st0
    let st2 := plan.patterns.foldl
      (fun st p => { st with log := st.log ++ patternSkipLines p }) st1
    let st3 :=
      if plan.fix_py then
        let r := fix.fixPyImports st2.fs
        { st2 with fs := r.1, log := st2.log ++ r.2 }
      else st2
    let st4 :=
      if plan.fix_js then
        let r := fix.fixJsImports st3.fs
        { st3 with fs := r.1, log := st3.log ++ r.2 }
      else st3
    let readmePath := dest_root ++ ["README.md"]
    let st5 :=
      if st4.fs.exists readmePath then st4
      else { st4 with
             fs := st4.fs.write readmePath
               (.text ("# " ++ plan.new_project_name ++ "\n\nGenerated by Local Extractor.\n")) }
    let giPath := dest_root ++ [".gitignore"]
    let st6 :=
      if st5.fs.exists giPath then st5
      else { st5 with
             fs := st5.fs.write giPath
               (.text ".DS_Store\nnode_modules/\n.dist/\n.build/\n__pycache__/\n.venv/\nvenv/\n.env\n") }
    let result : ApplyResult :=
      ⟨true, st6.copied, st6.transformed, st6.crlf, renderPath dest_root,
       st6.log, plan.warnings⟩
    if plan.generate_changelog then
      let clPath := dest_root ++ ["CHANGELOG.md"]
      let text := changelogText now plan result
      match st6.fs.read clPath with
      | some (.text existing) =>
        (st6.fs.write clPath (.text (text ++ existing)), .ok result)
      | some (.bin _) =>
        -- `read_text` raised on an undecodable existing changelog
        (st6.fs, .error "UnicodeDecodeError: CHANGELOG.md")
      | none =>
        (st6.fs.write clPath (.text text), .ok result)
    else
      (st6.fs, .ok result)

/-! ## HTTP plan handler (`Handler._handle_plan`, server.py lines 239-276) -/

/-- The JSON body of a `/api/plan` request; `none` models a missing key.
`include_paths`, `brand_map` and `patterns` appear already put through
their `data.get(k) or []` coercion (missing/null/empty all give `[]`). -/
structure PlanRequest where
  source_path : Option String
  include_paths : List String
  new_project_name : Option String
  old_brand : Option String
  new_brand : Option String
  scrub_secrets : Bool
  dest_path : Option String
  brand_map : List BrandItem
  patterns : List PatternRec
  fix_py : Bool
  fix_js : Bool

inductive PlanResponse where
  | err (msg : String) (status : Nat)
  | plan (p : Plan)

def PlanResponse.isErr : PlanResponse → Bool
  | .err _ _ => true
  | .plan _ => false

def PlanResponse.isPlan : PlanResponse → Bool
  | .err _ _ => false
  | .plan _ => true

/-- Python `x or default` for an optional string: missing or empty gives
the default. -/
def orDefault (o : Option String) (d : String) : String :=
  match o with
  | none => d
  | some s => if s = "" then d else s

/-- `Path(s).expanduser().resolve()` against the working directory `cwd`
(`~`-expansion is not modelled; no claim uses a `~` path).  `Path("")` is
`Path(".")`, so the empty string resolves to `cwd`. -/
def resolvePathStr (cwd : FsPath) (s : String) : FsPath :=
  resolvePath (pathJoin cwd s)

/-- Python truthiness of a `pathlib.Path`: `Path` defines neither
`__bool__` nor `__len__`, so `bool(p)` is `True` for every path and the
handler's `if not dest_path:` branch can never be taken. -/
def pathFalsy (_ : FsPath) : Bool := false

/-- `_handle_plan(data)`.  `fs` is the filesystem the existence checks
consult, `cwd` the process working directory, `todayDate`/`todayYear`
stand for `date.today()` inside `build_plan`.  The outer `try/except`
turns an exception from `build_plan` into a status-500 error response. -/
def handle_plan (fs : FS) (cwd : FsPath) (todayDate todayYear : String)
    (req : PlanRequest) : PlanResponse :=
  let source_path := resolvePathStr cwd (req.source_path.getD "")
  let new_project_name := pyStrip (orDefault req.new_project_name "NewProject")
  let old_brand := orDefault req.old_brand "OldBrand"
  let new_brand := orDefault req.new_brand "NewBrand"
  let dest_path := resolvePathStr cwd (req.dest_path.getD "")
  if !(fs.exists source_path) || !(fs.isDir source_path) then
    .err ("Invalid source_path: " ++ renderPath source_path) 400
  else if req.include_paths = [] then
    .err "include_paths array required" 400
  else if new_project_name = "" then
    .err "new_project_name required" 400
  else if pathFalsy dest_path then
    .err "dest_path required" 400
  else
    match build_plan fs todayDate todayYear source_path req.include_paths
        dest_path new_project_name old_brand new_brand req.scrub_secrets
        req.brand_map req.patterns true true [] 4 with
    | .error e => .err e 500
    | .ok p => .plan { p with fix_py := req.fix_py, fix_js := req.fix_js }

/-! ## Observers used by the theorems -/

def resultOk : Except String ApplyResult → Bool
  | .ok r => r.ok
  | .error _ => false

def logOf : Except String ApplyResult → List String
  | .ok r => r.log
  | .error _ => []

def resultFlag : TransformResult → Bool
  | .raw _ => false
  | .pair _ f => f

instance {ε α : Type} [DecidableEq ε] [DecidableEq α] : DecidableEq (Except ε α) :=
  fun a b =>
    match a, b with
    | .error e, .error f =>
      if h : e = f then isTrue (by rw [h])
      else isFalse (fun hh => h (Except.error.inj hh))
    | .ok x, .ok y =>
      if h : x = y then isTrue (by rw [h])
      else isFalse (fun hh => h (Except.ok.inj hh))
    | .error _, .ok _ => isFalse (fun hh => Except.noConfusion hh)
    | .ok _, .error _ => isFalse (fun hh => Except.noConfusion hh)

/-! ## Supporting lemmas for the brand-variant ordering -/

theorem variantBefore_true_le {a b : String} (h : variantBefore a b = true) :
    b.data.length ≤ a.data.length := by
  unfold variantBefore at h
  by_cases he : a.data.length = b.data.length
  · omega
  · rw [if_neg he] at h
    have := of_decide_eq_true h
    omega

theorem variantBefore_false_le {a b : String} (h : variantBefore a b = false) :
    a.data.length ≤ b.data.length := by
  unfold variantBefore at h
  by_cases he : a.data.length = b.data.length
  · omega
  · rw [if_neg he] at h
    have := of_decide_eq_false h
    omega

theorem mem_insertSortedVariant {x a : String} {l : List String}
    (h : x ∈ insertSortedVariant a l) : x = a ∨ x ∈ l := by
  induction l with
  | nil => simpa [insertSortedVariant] using h
  | cons b bs ih =>
    unfold insertSortedVariant at h
    by_cases hv : variantBefore a b = true
    · rw [if_pos hv, List.mem_cons] at h
      rcases h with rfl | h
      · exact Or.inl rfl
      · exact Or.inr h
    · rw [if_neg hv, List.mem_cons] at h
      rcases h with rfl | h
      · exact Or.inr (List.mem_cons_self x bs)
      · rcases ih h with h' | h'
        · exact Or.inl h'
        · exact Or.inr (List.mem_cons_of_mem b h')

theorem pairwise_insertSortedVariant {a : String} {l : List String}
    (h : l.Pairwise (fun x y => y.data.length ≤ x.data.length)) :
    (insertSortedVariant a l).Pairwise (fun x y => y.data.length ≤ x.data.length) := by
  induction l with
  | nil => simp [insertSortedVariant]
  | cons b bs ih =>
    rw [List.pairwise_cons] at h
    obtain ⟨h1, h2⟩ := h
    unfold insertSortedVariant
    by_cases hv : variantBefore a b = true
    · rw [if_pos hv]
      rw [List.pairwise_cons]
      refine ⟨?_, List.pairwise_cons.mpr ⟨h1, h2⟩⟩
      intro y hy
      rw [List.mem_cons] at hy
      rcases hy with rfl | hy
      · exact variantBefore_true_le hv
      · exact le_trans (h1 y hy) (variantBefore_true_le hv)
    · rw [if_neg hv]
      rw [List.pairwise_cons]
      refine ⟨?_, ih h2⟩
      intro y hy
      rcases mem_insertSortedVariant hy with rfl | hy'
      · exact variantBefore_false_le (Bool.eq_false_iff.mpr hv)
      · exact h1 y hy'

theorem sortVariants_pairwise (l : List String) :
    (sortVariants l).Pairwise (fun x y => y.data.length ≤ x.data.length) := by
  induction l with
  | nil => simp [sortVariants]
  | cons a as ih => exact pairwise_insertSortedVariant ih

/-! ## Concrete instances used by the claim theorems -/

/-- Filesystem for the path-escape run: a source tree with two files and an
empty `/tmp`. -/
def fsEscape : FS :=
  ⟨[[], ["tmp"], ["srcp"]],
   [(["srcp", "f.txt"], .text "sec"), (["srcp", "g.txt"], .text "hello")]⟩

/-- A plan whose first action escapes the destination root
(`dst = ../evil.txt` resolves to `/evil.txt`, outside `/tmp/out`) and whose
second action is ordinary. -/
def planEscape : Plan :=
  ⟨["srcp"], ["tmp"], ["tmp", "out"], "out", "", "", false, [],
   [⟨"copy", ["f.txt"], ["..", "evil.txt"], true⟩,
    ⟨"copy", ["g.txt"], ["out", "g.txt"], true⟩],
   [], [], true, false, [], 4, false, false⟩

/-- Filesystem whose `/d` directory exists and contains an entry. -/
def fsNonEmptyDest : FS := ⟨[[], ["d"], ["d", "x"]], []⟩

/-- A plan applying into the non-empty `/d`. -/
def planNonEmptyDest : Plan :=
  ⟨["s"], [], ["d"], "d", "", "", false, [], [], [], [], true, true, [], 4,
   false, false⟩

/-- A plan with one action whose source file does not exist. -/
def fsUnreadable : FS := ⟨[[], ["srcp"]], []⟩

def planUnreadable : Plan :=
  ⟨["srcp"], ["tmp"], ["tmp", "o"], "o", "", "", false, [],
   [⟨"copy", ["missing.txt"], ["o", "missing.txt"], true⟩],
   [], [], true, false, [], 4, false, false⟩

/-- C1: the spec says a destination-escaping action makes `apply` fail as a
whole before any further writes; the code instead catches the per-action
`RuntimeError` at `future.result()`, logs it as an `ERR` line, carries on
with the remaining actions and returns `ok = True`.  On `planEscape` the
escaping first action is followed by a successful write of the second
action's file, and the run reports success with the violation reduced to a
log line. -/
theorem apply_plan_escape_downgraded_to_log :
    resultOk (apply_plan trivHooks trivFixHooks "NOW" false planEscape fsEscape).2 = true
    ∧ logOf (apply_plan trivHooks trivFixHooks "NOW" false planEscape fsEscape).2
        = ["ERR Refusing to write outside destination root: /evil.txt",
           "TEXT g.txt -> out/g.txt"]
    ∧ (apply_plan trivHooks trivFixHooks "NOW" false planEscape fsEscape).1.read
        ["tmp", "out", "g.txt"] = some (.text "hello")
    ∧ (apply_plan trivHooks trivFixHooks "NOW" false planEscape fsEscape).1.read
        ["evil.txt"] = none := by
  refine ⟨by decide, by decide, by decide, by decide⟩

/-- C2 counterexample: on undecodable input `transform_bytes` returns the
bare `data` object (`return data`), not a `(bytes, flag)` pair, so its
result does not have the pair shape the claim asserts. -/
theorem transform_bytes_non_utf8_no_flag :
    TransformResult.isPair
      (transform_bytes trivHooks "f.bin" (.bin [255]) [] false true []) = false := by
  rfl

/-- C2 (amended): for every input that cannot be decoded as UTF-8,
`transform_bytes` returns the data unchanged — but as a bare bytes value
with no `crlfWasNormalized` flag, unlike the `(bytes, flag)` pair of the
text path. -/
theorem transform_bytes_non_utf8_passthrough
    (hooks : Hooks) (name : String) (raw : List Nat) (bm : List BrandItem)
    (scrub normalize : Bool) (tvars : List (String × String)) :
    transform_bytes hooks name (.bin raw) bm scrub normalize tvars
      = .raw (.bin raw) := by
  rfl

/-- C3: applying a plan whose destination root exists as a directory and
contains at least one entry raises `RuntimeError` before creating any
directory or writing any file: the returned state is exactly the input
filesystem. -/
theorem apply_plan_nonempty_dest_fails_unchanged
    (hooks : Hooks) (fix : FixHooks) (now : String) (cancel : Bool)
    (plan : Plan) (fs : FS)
    (hdir : fs.isDir (resolvePath plan.dest_root) = true)
    (hent : fs.hasEntry (resolvePath plan.dest_root) = true) :
    apply_plan hooks fix now cancel plan fs
      = (fs, .error ("Destination already exists and is not empty: "
          ++ renderPath (resolvePath plan.dest_root))) := by
  unfold apply_plan
  simp [FS.exists, hdir, hent]

/-- C3 witness: the guard fires on a concrete non-empty destination and the
filesystem comes back untouched. -/
theorem apply_plan_nonempty_dest_fails_unchanged_witness :
    fsNonEmptyDest.isDir (resolvePath planNonEmptyDest.dest_root) = true
    ∧ fsNonEmptyDest.hasEntry (resolvePath planNonEmptyDest.dest_root) = true
    ∧ apply_plan trivHooks trivFixHooks "NOW" false planNonEmptyDest fsNonEmptyDest
        = (fsNonEmptyDest, .error ("Destination already exists and is not empty: "
            ++ renderPath (resolvePath planNonEmptyDest.dest_root))) :=
  ⟨rfl, rfl,
   apply_plan_nonempty_dest_fails_unchanged trivHooks trivFixHooks "NOW" false
     planNonEmptyDest fsNonEmptyDest rfl rfl⟩

/-- C5: case-variant brand substitution.  On the spec's example the output
carries every case shape of the new brand and no case shape of the old one;
`_brand_variants` produces exactly the four case variants; and for every
token the variant list is ordered longest-first (its lengths are
non-increasing). -/
theorem brand_map_case_variant_coverage :
    applyBrandMap "oldbrand OLDBRAND Oldbrand OldBrand" [⟨"OldBrand", "NewBrand"⟩]
      = "newbrand NEWBRAND Newbrand NewBrand"
    ∧ brandVariants "OldBrand" = ["OLDBRAND", "OldBrand", "Oldbrand", "oldbrand"]
    ∧ (∀ v ∈ ["newbrand", "NEWBRAND", "Newbrand", "NewBrand"],
        strContains "newbrand NEWBRAND Newbrand NewBrand" v = true)
    ∧ (∀ v ∈ ["oldbrand", "OLDBRAND", "Oldbrand", "OldBrand"],
        strContains "newbrand NEWBRAND Newbrand NewBrand" v = false)
    ∧ (∀ token : String,
        (brandVariants token).Pairwise (fun x y => y.data.length ≤ x.data.length)) := by
  refine ⟨by decide, by decide, by decide, by decide, ?_⟩
  intro token
  exact sortVariants_pairwise _

/-- C10: `is_binary` never raises; when reading the first chunk fails
altogether (missing or unreadable file) the bare `except` returns `False`,
classifying the path as text.  Consequently `apply` takes the text branch
for such a path, and the read failure surfaces there as a per-action `ERR`
log line while the run itself still completes with `ok = True`. -/
theorem is_binary_unreadable_is_text :
    is_binary none = false
    ∧ resultOk (apply_plan trivHooks trivFixHooks "NOW" false planUnreadable fsUnreadable).2
        = true
    ∧ logOf (apply_plan trivHooks trivFixHooks "NOW" false planUnreadable fsUnreadable).2
        = ["ERR No such file or directory: /srcp/missing.txt"] := by
  refine ⟨by decide, by decide, by decide⟩

/-! ## Entropy-pass theorems -/

theorem isHighEntropy_eq_true_iff (v : String) :
    isHighEntropy v = true
      ↔ (entropyGtNat v.data = true ∧ 20 < v.data.length ∧ 2 ≤ classCount v) := by
  unfold isHighEntropy
  cases h1 : entropyGtNat v.data with
  | false =>
    simp [h1]
  | true =>
    by_cases h2 : v.data.length ≤ 20
    · simp only [h1, Bool.not_true, Bool.false_eq_true, if_false, if_pos h2]
      constructor
      · intro h
        exact absurd h (by simp)
      · intro h
        omega
    · simp only [h1, Bool.not_true, Bool.false_eq_true, if_false, if_neg h2,
        decide_eq_true_eq]
      constructor
      · intro h
        exact ⟨by simp, by omega, h⟩
      · intro h
        exact h.2.2

theorem isHighEntropy_iff_real (v : String) (hne : v.data ≠ []) :
    isHighEntropy v = true
      ↔ ((4.5 : ℝ) < entropyReal v.data ∧ 20 < v.data.length ∧ 2 ≤ classCount v) := by
  rw [isHighEntropy_eq_true_iff, ← entropyGt_iff_natTest v.data hne]

/-- C6: on a line matched by `_ASSIGN_RE` (upper-snake-case key, quoted
value of at least 20 characters), the entropy pass redacts the value —
replacing it by `REDACTED` and reporting a key-plus-ellipsis hit — exactly
when the value's Shannon entropy exceeds 4.5 bits/char, its length is
strictly greater than 20, and it spans at least 2 of the 4 character
classes.  In particular the 32-character mixed-class value is redacted and
`"hello world this is not a secret"` is not. -/
theorem entropy_redaction_rule :
    (∀ g1 v g3 : String, 20 ≤ v.data.length →
      (scrubEntropyMatch g1 v g3
          = (g1 ++ "REDACTED" ++ g3, [pyStrip g1 ++ "... (entropy redacted)"])
        ↔ ((4.5 : ℝ) < entropyReal v.data ∧ 20 < v.data.length ∧ 2 ≤ classCount v)))
    ∧ scrubEntropyMatch "API_SECRET_KEY = \"" "abcdefgh12345678ABCDEFGH!@#$%^&*" "\""
        = ("API_SECRET_KEY = \"REDACTED\"",
           ["API_SECRET_KEY = \"... (entropy redacted)"])
    ∧ scrubEntropyMatch "PLAIN_TEXT_VALUE = \"" "hello world this is not a secret" "\""
        = ("PLAIN_TEXT_VALUE = \"hello world this is not a secret\"", []) := by
  refine ⟨?_, by decide, by decide⟩
  intro g1 v g3 hlen
  have hne : v.data ≠ [] := by
    intro h
    rw [h] at hlen
    simp at hlen
  by_cases hhe : isHighEntropy v = true
  · unfold scrubEntropyMatch
    rw [if_pos hhe]
    constructor
    · intro _
      exact (isHighEntropy_iff_real v hne).mp hhe
    · intro _
      rfl
  · have hhe' : isHighEntropy v = false := Bool.eq_false_iff.mpr hhe
    unfold scrubEntropyMatch
    rw [hhe']
    simp only [Bool.false_eq_true, if_false]
    constructor
    · intro heq
      have h2 := congrArg Prod.snd heq
      simp at h2
    · intro hcond
      exact absurd ((isHighEntropy_iff_real v hne).mpr hcond) hhe

/-- C6 witness: the general redaction rule instantiated at a concrete
matched line. -/
theorem entropy_redaction_rule_witness :
    20 ≤ ("abcdefgh12345678ABCDEFGH!@#$%^&*" : String).data.length
    ∧ (scrubEntropyMatch "K_A = \"" "abcdefgh12345678ABCDEFGH!@#$%^&*" "\""
          = ("K_A = \"" ++ "REDACTED" ++ "\"",
             [pyStrip "K_A = \"" ++ "... (entropy redacted)"])
        ↔ ((4.5 : ℝ) < entropyReal ("abcdefgh12345678ABCDEFGH!@#$%^&*" : String).data
            ∧ 20 < ("abcdefgh12345678ABCDEFGH!@#$%^&*" : String).data.length
            ∧ 2 ≤ classCount "abcdefgh12345678ABCDEFGH!@#$%^&*")) :=
  ⟨by decide,
   entropy_redaction_rule.1 "K_A = \"" "abcdefgh12345678ABCDEFGH!@#$%^&*" "\"" (by decide)⟩

/-! ## Hit-report theorems -/

theorem dropWhile_append_singleton (p : Char → Bool) (q : Char) (hq : p q = false) :
    ∀ l : List Char, ∃ m, (l ++ [q]).dropWhile p = m ++ [q] := by
  intro l
  induction l with
  | nil =>
    refine ⟨[], ?_⟩
    simp [List.dropWhile, hq]
  | cons a l ih =>
    by_cases ha : p a = true
    · simpa [List.dropWhile, ha] using ih
    · refine ⟨a :: l, ?_⟩
      have ha' : p a = false := Bool.eq_false_iff.mpr ha
      simp [List.dropWhile, ha']

theorem mem_pyStripList_last (l : List Char) (q : Char) (hq : pySpace q = false) :
    q ∈ pyStripList (l ++ [q]) := by
  unfold pyStripList
  rcases dropWhile_append_singleton pySpace q hq l with ⟨m, hm⟩
  rw [hm]
  rw [List.reverse_append]
  simp only [List.reverse_cons, List.reverse_nil, List.nil_append, List.singleton_append]
  rw [List.dropWhile]
  rw [hq]
  simp

/-- The hits accumulated by one segment. -/
def segHits : Seg → List String
  | .lit _ => []
  | .assign g1 g2 g3 => (scrubEntropyMatch g1 g2 g3).2

theorem scrubEntropySegs_hits_aux (segs : List Seg) :
    ∀ acc : String × List String,
      (segs.foldl
        (fun acc seg =>
          match seg with
          | .lit s => (acc.1 ++ s, acc.2)
          | .assign g1 g2 g3 =>
            let r := scrubEntropyMatch g1 g2 g3
            (acc.1 ++ r.1, acc.2 ++ r.2))
        acc).2 = acc.2 ++ segs.flatMap segHits := by
  induction segs with
  | nil => intro acc; simp
  | cons seg rest ih =>
    intro acc
    cases seg with
    | lit s =>
      simp only [List.foldl_cons, List.flatMap_cons]
      rw [ih]
      simp [segHits]
    | assign g1 g2 g3 =>
      simp only [List.foldl_cons, List.flatMap_cons]
      rw [ih]
      simp [segHits]

theorem scrubEntropySegs_hits (segs : List Seg) :
    (scrubEntropySegs segs).2 = segs.flatMap segHits := by
  unfold scrubEntropySegs
  rw [scrubEntropySegs_hits_aux]
  simp

/-- C9: over any matcher decomposition of the input whose matches satisfy
the regex's structural guarantees (group 1 ends with a quote, the value
contains no quote), every hit the entropy pass reports is built only from
the stripped key/prefix group plus the ellipsis marker, and no redacted
value appears in the hit list. -/
theorem entropy_hits_never_contain_values (segs : List Seg)
    (hwf : ∀ g1 g2 g3, Seg.assign g1 g2 g3 ∈ segs → matchShape g1 g2 g3 = true) :
    (∀ h ∈ (scrubEntropySegs segs).2, ∃ g1 g2 g3,
        Seg.assign g1 g2 g3 ∈ segs ∧ isHighEntropy g2 = true
          ∧ h = pyStrip g1 ++ "... (entropy redacted)")
    ∧ (∀ g1 g2 g3, Seg.assign g1 g2 g3 ∈ segs → g2 ∉ (scrubEntropySegs segs).2) := by
  have hshape : ∀ h ∈ (scrubEntropySegs segs).2, ∃ g1 g2 g3,
      Seg.assign g1 g2 g3 ∈ segs ∧ isHighEntropy g2 = true
        ∧ h = pyStrip g1 ++ "... (entropy redacted)" := by
    intro h hmem
    rw [scrubEntropySegs_hits] at hmem
    rcases List.mem_flatMap.mp hmem with ⟨seg, hseg, hh⟩
    cases seg with
    | lit s => simp [segHits] at hh
    | assign g1 g2 g3 =>
      refine ⟨g1, g2, g3, hseg, ?_, ?_⟩
      · by_contra hhe
        have hhe' : isHighEntropy g2 = false := Bool.eq_false_iff.mpr hhe
        simp [segHits, scrubEntropyMatch, hhe'] at hh
      · cases hhe : isHighEntropy g2 with
        | false => simp [segHits, scrubEntropyMatch, hhe] at hh
        | true =>
          simp [segHits, scrubEntropyMatch, hhe] at hh
          exact hh
  refine ⟨hshape, ?_⟩
  intro g1 g2 g3 hmem hg2
  rcases hshape g2 hg2 with ⟨g1', g2', g3', hmem', _, heq⟩
  -- the hit's text contains the quote character ending group 1 of its own
  -- match, while the value of any match contains no quote character.
  have hws := hwf g1' g2' g3' hmem'
  have hwv := hwf g1 g2 g3 hmem
  unfold matchShape at hws hwv
  rw [Bool.and_eq_true] at hws hwv
  obtain ⟨hlast, _⟩ := hws
  obtain ⟨_, hnoq⟩ := hwv
  cases hq : g1'.data.getLast? with
  | none => rw [hq] at hlast; exact absurd hlast (by simp)
  | some q =>
    rw [hq] at hlast
    have hlast' : quoteChar q = true := by simpa using hlast
    have hne : g1'.data ≠ [] := by
      intro he
      rw [he] at hq
      simp at hq
    have hsplit : g1'.data.dropLast ++ [g1'.data.getLast hne] = g1'.data :=
      List.dropLast_append_getLast hne
    have hqe : g1'.data.getLast hne = q := by
      have := List.getLast?_eq_getLast g1'.data hne
      rw [this] at hq
      exact Option.some.inj hq
    have hq_nospace : pySpace q = false := by
      unfold quoteChar at hlast'
      rw [Bool.or_eq_true] at hlast'
      rcases hlast' with hquote | hquote
      · rw [decide_eq_true_eq] at hquote
        subst hquote
        decide
      · rw [decide_eq_true_eq] at hquote
        subst hquote
        decide
    have hqmem : q ∈ (pyStrip g1').data := by
      unfold pyStrip
      show q ∈ pyStripList g1'.data
      rw [← hsplit, hqe]
      exact mem_pyStripList_last _ q hq_nospace
    have hqing2 : q ∈ g2.data := by
      rw [heq] at *
      have : (pyStrip g1' ++ "... (entropy redacted)").data
          = (pyStrip g1').data ++ ("... (entropy redacted)" : String).data := rfl
      rw [this]
      exact List.mem_append_left _ hqmem
    have := List.all_eq_true.mp hnoq q hqing2
    rw [hlast'] at this
    simp at this

/-- C9 witness: a concrete decomposition with one high-entropy match. -/
theorem entropy_hits_never_contain_values_witness :
    (∀ g1 g2 g3, Seg.assign g1 g2 g3
        ∈ [Seg.lit "x=1\n",
           Seg.assign "API_KEY_ZZ = \"" "abcdefgh12345678ABCDEFGH!@#$%^&*" "\""]
      → matchShape g1 g2 g3 = true)
    ∧ ((∀ h ∈ (scrubEntropySegs
          [Seg.lit "x=1\n",
           Seg.assign "API_KEY_ZZ = \"" "abcdefgh12345678ABCDEFGH!@#$%^&*" "\""]).2,
        ∃ g1 g2 g3,
          Seg.assign g1 g2 g3
              ∈ [Seg.lit "x=1\n",
                 Seg.assign "API_KEY_ZZ = \"" "abcdefgh12345678ABCDEFGH!@#$%^&*" "\""]
            ∧ isHighEntropy g2 = true
            ∧ h = pyStrip g1 ++ "... (entropy redacted)")
      ∧ (∀ g1 g2 g3,
          Seg.assign g1 g2 g3
              ∈ [Seg.lit "x=1\n",
                 Seg.assign "API_KEY_ZZ = \"" "abcdefgh12345678ABCDEFGH!@#$%^&*" "\""]
            → g2 ∉ (scrubEntropySegs
                [Seg.lit "x=1\n",
                 Seg.assign "API_KEY_ZZ = \"" "abcdefgh12345678ABCDEFGH!@#$%^&*" "\""]).2)) := by
  have hwfc : ∀ g1 g2 g3, Seg.assign g1 g2 g3
      ∈ [Seg.lit "x=1\n",
         Seg.assign "API_KEY_ZZ = \"" "abcdefgh12345678ABCDEFGH!@#$%^&*" "\""]
      → matchShape g1 g2 g3 = true := by
    intro g1 g2 g3 hmem
    rcases List.mem_cons.mp hmem with heq | hmem2
    · cases heq
    · rcases List.mem_singleton.mp hmem2 with heq2
      cases heq2
      decide
  exact ⟨hwfc, entropy_hits_never_contain_values _ hwfc⟩

/-! ## CRLF-normalization theorems -/

/-- Every carriage return in the list is immediately followed by a line
feed (the shape of a file whose only line endings are `\r\n`). -/
def crPaired : List Char → Bool
  | [] => true
  | c :: cs => (if c = '\r' then cs.head? == some '\n' else true) && crPaired cs

theorem replaceAux_crlf_no_cr :
    ∀ (fuel : Nat) (l : List Char), l.length ≤ fuel → crPaired l = true →
      '\r' ∉ replaceAux ['\r', '\n'] ['\n'] fuel l := by
  intro fuel
  induction fuel with
  | zero =>
    intro l hl _
    have : l = [] := List.eq_nil_of_length_eq_zero (Nat.le_zero.mp hl)
    subst this
    simp [replaceAux]
  | succ n ih =>
    intro l hl hcr
    cases l with
    | nil => simp [replaceAux]
    | cons c cs =>
      by_cases hp : (['\r', '\n'] : List Char).isPrefixOf (c :: cs) = true
      · cases cs with
        | nil => simp [List.isPrefixOf] at hp
        | cons d ds =>
          have hcd : '\r' = c ∧ '\n' = d := by
            simpa [List.isPrefixOf] using hp
          obtain ⟨rfl, rfl⟩ := hcd
          rw [replaceAux, if_pos ⟨by decide, hp⟩]
          have hdrop : List.drop ((['\r', '\n'] : List Char).length - 1) ('\n' :: ds) = ds := by
            simp
          rw [hdrop]
          intro hmem
          rcases List.mem_append.mp hmem with hmem | hmem
          · simp at hmem
          · have hcr' : crPaired ds = true := by
              simp [crPaired] at hcr
              exact hcr
            have hlen : ds.length ≤ n := by
              simp at hl
              omega
            exact ih ds hlen hcr' hmem
      · rw [replaceAux, if_neg (fun hh => hp hh.2)]
        have hc : c ≠ '\r' := by
          intro hceq
          subst hceq
          simp only [crPaired, if_pos rfl, Bool.and_eq_true, beq_iff_eq] at hcr
          obtain ⟨hhead, _⟩ := hcr
          cases cs with
          | nil => simp at hhead
          | cons d ds =>
            simp at hhead
            subst hhead
            exact hp (by simp [List.isPrefixOf])
        have hcr' : crPaired cs = true := by
          rw [crPaired, Bool.and_eq_true] at hcr
          exact hcr.2
        intro hmem
        rcases List.mem_cons.mp hmem with heq | hmem
        · exact hc heq.symm
        · have hlen : cs.length ≤ n := by
            simp at hl
            omega
          exact ih cs hlen hcr' hmem

theorem no_cr_no_crlf_infix :
    ∀ l : List Char, '\r' ∉ l →
      isInfixList ['\r', '\n'] l = false := by
  intro l
  induction l with
  | nil => intro _; rfl
  | cons c cs ih =>
    intro hnc
    have hc : c ≠ '\r' := fun h => hnc (h ▸ List.mem_cons_self c cs)
    rw [isInfixList]
    have hpre : (['\r', '\n'] : List Char).isPrefixOf (c :: cs) = false := by
      cases hb : (['\r', '\n'] : List Char).isPrefixOf (c :: cs) with
      | false => rfl
      | true =>
        exfalso
        cases cs with
        | nil => simp [List.isPrefixOf] at hb
        | cons d ds =>
          have := (by simpa [List.isPrefixOf] using hb : '\r' = c ∧ '\n' = d)
          exact hc this.1.symm
    rw [hpre]
    simp only [Bool.false_or]
    exact ih (fun h => hnc (List.mem_cons_of_mem c h))

theorem replaceAux_length_le (pat rep : List Char) (hle : rep.length ≤ pat.length) :
    ∀ (fuel : Nat) (l : List Char), (replaceAux pat rep fuel l).length ≤ l.length := by
  intro fuel
  induction fuel with
  | zero =>
    intro l
    cases l <;> simp [replaceAux]
  | succ n ih =>
    intro l
    cases l with
    | nil => simp [replaceAux]
    | cons c cs =>
      rw [replaceAux]
      split
      · rename_i hcond
        have hpre : pat <+: (c :: cs) := List.isPrefixOf_iff_prefix.mp hcond.2
        have hplen : pat.length ≤ cs.length + 1 := by
          have := hpre.length_le
          simpa using this
        have hpne : 1 ≤ pat.length := by
          cases pat with
          | nil => exact absurd rfl hcond.1
          | cons _ _ => simp
        have hrec := ih (List.drop (pat.length - 1) cs)
        simp only [List.length_append, List.length_drop, List.length_cons]
        have hdlen : (List.drop (pat.length - 1) cs).length = cs.length - (pat.length - 1) :=
          List.length_drop _ _
        rw [hdlen] at hrec
        omega
      · simp only [List.length_cons]
        have := ih cs
        omega

theorem replaceAux_length_lt (pat rep : List Char) (hlt : rep.length < pat.length) :
    ∀ (fuel : Nat) (l : List Char), l.length ≤ fuel → isInfixList pat l = true →
      (replaceAux pat rep fuel l).length < l.length := by
  have hpne : pat ≠ [] := by
    intro h
    rw [h] at hlt
    simp at hlt
  intro fuel
  induction fuel with
  | zero =>
    intro l hl hi
    have : l = [] := List.eq_nil_of_length_eq_zero (Nat.le_zero.mp hl)
    subst this
    rw [isInfixList] at hi
    rw [List.isEmpty_iff] at hi
    exact absurd hi hpne
  | succ n ih =>
    intro l hl hi
    cases l with
    | nil =>
      rw [isInfixList] at hi
      rw [List.isEmpty_iff] at hi
      exact absurd hi hpne
    | cons c cs =>
      by_cases hp : pat.isPrefixOf (c :: cs) = true
      · rw [replaceAux, if_pos ⟨hpne, hp⟩]
        have hpre : pat <+: (c :: cs) := List.isPrefixOf_iff_prefix.mp hp
        have hplen : pat.length ≤ cs.length + 1 := by
          have := hpre.length_le
          simpa using this
        have hrec := replaceAux_length_le pat rep (le_of_lt hlt) n
          (List.drop (pat.length - 1) cs)
        simp only [List.length_append, List.length_drop, List.length_cons] at *
        omega
      · rw [replaceAux, if_neg (fun hh => hp hh.2)]
        rw [isInfixList] at hi
        rw [Bool.or_eq_true] at hi
        rcases hi with hi | hi
        · exact absurd hi hp
        · simp only [List.length_cons]
          have hlen : cs.length ≤ n := by
            simp at hl
            omega
          have := ih cs hlen hi
          omega

theorem transform_plain (hooks : Hooks) (name t : String) (nrm : Bool)
    (h1 : name ≠ "package.json") (h2 : name ≠ "pyproject.toml") :
    transform_bytes hooks name (.text t) [] false nrm []
      = (if nrm = true ∧ strContains t "\r\n" = true then
           .pair (.text (strReplace t "\r\n" "\n")) true
         else .pair (.text t) false) := by
  unfold transform_bytes
  simp only [if_neg h1, if_neg h2, ne_eq, not_true_eq_false, if_neg (by simp : ¬ (([] : List BrandItem) ≠ [])),
    Bool.false_eq_true, if_false, List.foldl_nil]
  by_cases hc : nrm = true ∧ strContains t "\r\n" = true
  · rw [if_pos hc, if_pos hc]
  · rw [if_neg hc, if_neg hc]

/-- C7 counterexample: for the UTF-8 input `"\r\r\n"` with
`normalizeLineEndings = true`, the input contains a `\r\n`, the returned
flag is `true`, yet the output `"\r\n"` still contains a `\r\n` sequence —
`str.replace` scans left to right and the leading bare `\r` joins the `\n`
produced by the replacement, so the output is not CRLF-free as the claim
states. -/
theorem crlf_output_can_retain_crlf :
    strContains "\r\r\n" "\r\n" = true
    ∧ transform_bytes trivHooks "f.txt" (.text "\r\r\n") [] false true []
        = .pair (.text "\r\n") true
    ∧ strContains "\r\n" "\r\n" = true := by
  refine ⟨by decide, by decide, by decide⟩

/-- C7 (amended): with no other transform applicable (no brand map, no
scrubbing, no template variables, a file name that triggers no metadata
rewrite): (a) if normalization is requested, a `\r\n` is present and every
`\r` of the input is immediately followed by `\n`, the output is the
left-to-right replacement of `\r\n` by `\n`, contains no `\r\n`, and the
flag is `true`; (b) with normalization off the output is byte-identical
and the flag is `false`; (c) the flag is true exactly when normalization
was requested and a `\r\n` was present; (d) when a `\r\n` is present the
replacement really changes the text. -/
theorem crlf_normalization_amended (hooks : Hooks) (name t : String)
    (h1 : name ≠ "package.json") (h2 : name ≠ "pyproject.toml") :
    (strContains t "\r\n" = true → crPaired t.data = true →
      transform_bytes hooks name (.text t) [] false true []
          = .pair (.text (strReplace t "\r\n" "\n")) true
        ∧ strContains (strReplace t "\r\n" "\n") "\r\n" = false)
    ∧ transform_bytes hooks name (.text t) [] false false [] = .pair (.text t) false
    ∧ (∀ nrm : Bool,
        resultFlag (transform_bytes hooks name (.text t) [] false nrm [])
          = (nrm && strContains t "\r\n"))
    ∧ (strContains t "\r\n" = true → strReplace t "\r\n" "\n" ≠ t) := by
  refine ⟨?_, ?_, ?_, ?_⟩
  · intro hcont hcr
    constructor
    · rw [transform_plain hooks name t true h1 h2, if_pos ⟨rfl, hcont⟩]
    · have hnoCR : Char.ofNat 13 ∉ replaceList [Char.ofNat 13, Char.ofNat 10]
          [Char.ofNat 10] t.data :=
        replaceAux_crlf_no_cr t.data.length t.data le_rfl hcr
      have hpat : (("\r\n" : String)).data = [Char.ofNat 13, Char.ofNat 10] := by decide
      have hrep : (("\n" : String)).data = [Char.ofNat 10] := by decide
      unfold strContains strReplace replaceList
      rw [hpat, hrep]
      exact no_cr_no_crlf_infix _ hnoCR
  · rw [transform_plain hooks name t false h1 h2, if_neg (by simp)]
  · intro nrm
    rw [transform_plain hooks name t nrm h1 h2]
    cases nrm with
    | false => simp [resultFlag]
    | true =>
      cases hcont : strContains t "\r\n" with
      | false => simp [hcont, resultFlag]
      | true => simp [hcont, resultFlag]
  · intro hcont
    intro heq
    have hlen : (strReplace t "\r\n" "\n").data.length < t.data.length := by
      unfold strReplace replaceList
      have hpat : (("\r\n" : String)).data = ['\r', '\n'] := by decide
      have hrep : (("\n" : String)).data = ['\n'] := by decide
      rw [hpat, hrep]
      refine replaceAux_length_lt _ _ (by decide) t.data.length t.data le_rfl ?_
      unfold strContains at hcont
      rw [hpat] at hcont
      exact hcont
    rw [heq] at hlen
    exact lt_irrefl _ hlen

/-- C7 witness: the amended statement instantiated on `"a\r\nb"`. -/
theorem crlf_normalization_amended_witness :
    ("f.txt" ≠ "package.json" ∧ "f.txt" ≠ "pyproject.toml")
    ∧ ((strContains "a\r\nb" "\r\n" = true → crPaired ("a\r\nb" : String).data = true →
        transform_bytes trivHooks "f.txt" (.text "a\r\nb") [] false true []
            = .pair (.text (strReplace "a\r\nb" "\r\n" "\n")) true
          ∧ strContains (strReplace "a\r\nb" "\r\n" "\n") "\r\n" = false)
      ∧ transform_bytes trivHooks "f.txt" (.text "a\r\nb") [] false false []
          = .pair (.text "a\r\nb") false
      ∧ (∀ nrm : Bool,
          resultFlag (transform_bytes trivHooks "f.txt" (.text "a\r\nb") [] false nrm [])
            = (nrm && strContains "a\r\nb" "\r\n"))
      ∧ (strContains "a\r\nb" "\r\n" = true → strReplace "a\r\nb" "\r\n" "\n" ≠ "a\r\nb")) :=
  ⟨⟨by decide, by decide⟩,
   crlf_normalization_amended trivHooks "f.txt" "a\r\nb" (by decide) (by decide)⟩

/-! ## Plan-builder invariant (C8) -/

/-- Well-formedness of the file table: a real directory entry can never be
named `.` or `..` (those names are reserved by the filesystem). -/
def FS.wf (fs : FS) : Prop :=
  ∀ e ∈ fs.files, ∀ c ∈ e.1, c ≠ "." ∧ c ≠ ".."

instance (fs : FS) : Decidable fs.wf := by
  unfold FS.wf
  infer_instance

theorem foldl_resolveStep_clean :
    ∀ (q : FsPath) (acc : FsPath), (∀ c ∈ q, c ≠ "." ∧ c ≠ "..") →
      q.foldl resolveStep acc = acc ++ q := by
  intro q
  induction q with
  | nil =>
    intro acc _
    simp
  | cons c cs ih =>
    intro acc hq
    obtain ⟨h1, h2⟩ := hq c (List.mem_cons_self c cs)
    have hstep : resolveStep acc c = acc ++ [c] := by
      unfold resolveStep
      rw [if_neg h1, if_neg h2]
    rw [List.foldl_cons, hstep,
      ih (acc ++ [c]) (fun x hx => hq x (List.mem_cons_of_mem c hx))]
    simp

theorem resolvePath_append_clean (p q : FsPath)
    (hq : ∀ c ∈ q, c ≠ "." ∧ c ≠ "..") :
    resolvePath (p ++ q) = resolvePath p ++ q := by
  unfold resolvePath
  rw [List.foldl_append]
  exact foldl_resolveStep_clean q (p.foldl resolveStep []) hq

theorem foldl_resolveStep_output_clean :
    ∀ (q : FsPath) (acc : FsPath), (∀ c ∈ acc, c ≠ "." ∧ c ≠ "..") →
      ∀ c ∈ q.foldl resolveStep acc, c ≠ "." ∧ c ≠ ".." := by
  intro q
  induction q with
  | nil =>
    intro acc hacc
    simpa using hacc
  | cons c cs ih =>
    intro acc hacc
    rw [List.foldl_cons]
    apply ih
    unfold resolveStep
    by_cases h1 : c = "."
    · rw [if_pos h1]
      exact hacc
    · rw [if_neg h1]
      by_cases h2 : c = ".."
      · rw [if_pos h2]
        intro x hx
        exact hacc x (List.mem_of_mem_dropLast hx)
      · rw [if_neg h2]
        intro x hx
        rcases List.mem_append.mp hx with hx | hx
        · exact hacc x hx
        · rw [List.mem_singleton.mp hx]
          exact ⟨h1, h2⟩

theorem resolvePath_clean (p : FsPath) :
    ∀ c ∈ resolvePath p, c ≠ "." ∧ c ≠ ".." := by
  unfold resolvePath
  exact foldl_resolveStep_output_clean p [] (by simp)

theorem relativeTo_ok {p base d : FsPath} (h : relativeTo p base = .ok d) :
    base ++ d = p ∧ d = p.drop base.length := by
  unfold relativeTo at h
  by_cases hpre : base.isPrefixOf p = true
  · rw [if_pos hpre] at h
    have hd : d = p.drop base.length := (Except.ok.inj h).symm
    rcases List.isPrefixOf_iff_prefix.mp hpre with ⟨t, rfl⟩
    constructor
    · rw [hd]
      simp
    · exact hd
  · rw [if_neg hpre] at h
    exact absurd h (by simp)

theorem mapMExcept_ok_mem {α β : Type} {f : α → Except String β} :
    ∀ {l : List α} {ys : List β}, mapMExcept f l = .ok ys →
      ∀ y ∈ ys, ∃ x ∈ l, f x = .ok y := by
  intro l
  induction l with
  | nil =>
    intro ys h y hy
    have : ys = [] := (Except.ok.inj h).symm
    subst this
    simp at hy
  | cons x xs ih =>
    intro ys h y hy
    unfold mapMExcept at h
    cases hf : f x with
    | error e => rw [hf] at h; exact absurd h (by simp)
    | ok y0 =>
      rw [hf] at h
      cases hm : mapMExcept f xs with
      | error e => rw [hm] at h; exact absurd h (by simp)
      | ok ys0 =>
        rw [hm] at h
        have : ys = y0 :: ys0 := (Except.ok.inj h).symm
        subst this
        rcases List.mem_cons.mp hy with rfl | hy'
        · exact ⟨x, List.mem_cons_self x xs, hf⟩
        · rcases ih hm y hy' with ⟨x', hx', hfx'⟩
          exact ⟨x', List.mem_cons_of_mem x hx', hfx'⟩

/-- The shape every action produced by the plan builder has: a copy of some
clean relative path `rel2`, with destination computed by
`mkCopyAction`. -/
def actionOk (B R : FsPath) (a : ActionRec) : Prop :=
  ∃ rel2 : FsPath, (∀ c ∈ rel2, c ≠ "." ∧ c ≠ "..") ∧ mkCopyAction B R rel2 = .ok a

theorem walkFiles_mem {fs : FS} {src p : FsPath} (h : p ∈ walkFiles fs src) :
    ∃ e ∈ fs.files, e.1 = p := by
  unfold walkFiles at h
  have hmem := List.mem_of_mem_filter h
  rcases List.mem_map.mp hmem with ⟨e, he, rfl⟩
  exact ⟨e, he, rfl⟩

theorem processInclude_preserves {fs : FS} (hwf : fs.wf)
    {sr B R : FsPath} {acc acc2 : List ActionRec × List String} {rel : String}
    (h : processInclude fs sr B R acc rel = .ok acc2)
    (hacc : ∀ a ∈ acc.1, actionOk B R a) :
    ∀ a ∈ acc2.1, actionOk B R a := by
  unfold processInclude at h
  by_cases hb1 : (!(strIsPrefixOf (renderPath sr)
      (renderPath (resolvePath (pathJoin sr rel))))) = true
  · rw [if_pos hb1] at h
    have : acc2 = (acc.1, _) := (Except.ok.inj h).symm
    rw [this]
    exact hacc
  · rw [if_neg hb1] at h
    by_cases hb2 : (!(fs.exists (resolvePath (pathJoin sr rel)))) = true
    · rw [if_pos hb2] at h
      have : acc2 = (acc.1, _) := (Except.ok.inj h).symm
      rw [this]
      exact hacc
    · rw [if_neg hb2] at h
      by_cases hb3 : fs.isDir (resolvePath (pathJoin sr rel)) = true
      · rw [if_pos hb3] at h
        cases hm : mapMExcept
            (fun p =>
              match relativeTo p sr with
              | .error e => .error e
              | .ok rel2 => mkCopyAction B R rel2)
            (walkFiles fs (resolvePath (pathJoin sr rel))) with
        | error e => rw [hm] at h; exact absurd h (by simp)
        | ok acts =>
          rw [hm] at h
          have : acc2 = (acc.1 ++ acts, acc.2) := (Except.ok.inj h).symm
          subst this
          intro a ha
          rcases List.mem_append.mp ha with ha | ha
          · exact hacc a ha
          · rcases mapMExcept_ok_mem hm a ha with ⟨p, hp, hfp⟩
            cases hrel : relativeTo p sr with
            | error e => rw [hrel] at hfp; exact absurd hfp (by simp)
            | ok rel2 =>
              rw [hrel] at hfp
              refine ⟨rel2, ?_, hfp⟩
              obtain ⟨hfix, hdrop⟩ := relativeTo_ok hrel
              rcases walkFiles_mem hp with ⟨e, he, rfl⟩
              intro c hc
              rw [hdrop] at hc
              exact hwf e he c (List.mem_of_mem_drop hc)
      · rw [if_neg hb3] at h
        cases hrel : relativeTo (resolvePath (pathJoin sr rel)) sr with
        | error e => rw [hrel] at h; exact absurd h (by simp)
        | ok rel2 =>
          rw [hrel] at h
          dsimp only at h
          cases hmk : mkCopyAction B R rel2 with
          | error e => rw [hmk] at h; exact absurd h (by simp)
          | ok act =>
            rw [hmk] at h
            have : acc2 = (acc.1 ++ [act], acc.2) := (Except.ok.inj h).symm
            subst this
            intro a ha
            rcases List.mem_append.mp ha with ha | ha
            · exact hacc a ha
            · rw [List.mem_singleton.mp ha]
              refine ⟨rel2, ?_, hmk⟩
              obtain ⟨hfix, hdrop⟩ := relativeTo_ok hrel
              intro c hc
              rw [hdrop] at hc
              exact resolvePath_clean _ c (List.mem_of_mem_drop hc)

theorem foldlMExcept_processInclude {fs : FS} (hwf : fs.wf) {sr B R : FsPath} :
    ∀ (incl : List String) (acc res : List ActionRec × List String),
      (∀ a ∈ acc.1, actionOk B R a) →
      foldlMExcept (processInclude fs sr B R) acc incl = .ok res →
      ∀ a ∈ res.1, actionOk B R a := by
  intro incl
  induction incl with
  | nil =>
    intro acc res hacc h
    have : res = acc := (Except.ok.inj h).symm
    subst this
    exact hacc
  | cons rel incl ih =>
    intro acc res hacc h
    unfold foldlMExcept at h
    cases hp : processInclude fs sr B R acc rel with
    | error e => rw [hp] at h; exact absurd h (by simp)
    | ok acc2 =>
      rw [hp] at h
      exact ih acc2 res (processInclude_preserves hwf hp hacc) h

theorem actionOk_dest {B R : FsPath} {a : ActionRec} (h : actionOk B R a) :
    (resolvePath R).isPrefixOf (resolvePath (B ++ a.dst)) = true := by
  obtain ⟨rel2, hclean, hmk⟩ := h
  unfold mkCopyAction at hmk
  cases hrel : relativeTo (R ++ rel2) B with
  | error e => rw [hrel] at hmk; exact absurd hmk (by simp)
  | ok d =>
    rw [hrel] at hmk
    have ha : a = ⟨"copy", rel2, d, true⟩ := (Except.ok.inj hmk).symm
    obtain ⟨hfix, _⟩ := relativeTo_ok hrel
    have hdst : B ++ a.dst = R ++ rel2 := by
      rw [ha]
      exact hfix
    rw [hdst, resolvePath_append_clean R rel2 hclean]
    exact List.isPrefixOf_iff_prefix.mpr ⟨rel2, rfl⟩

/-- C8: every action of a successfully built Plan has a destination that,
resolved against `destinationBase`, lies within (the resolution of)
`destinationRoot = destinationBase/newProjectName`: the resolved root is a
componentwise prefix of the resolved destination.  The filesystem
hypothesis says only that no directory entry is literally named `.` or
`..`, which is true of every real filesystem. -/
theorem build_plan_dest_within_root
    (fs : FS) (hwf : fs.wf) (todayDate todayYear : String)
    (source_root_raw : FsPath) (include_rel_paths : List String)
    (dest_base_raw : FsPath) (new_project_name : String)
    (old_brand new_brand : String) (scrub_secrets : Bool)
    (brand_map : List BrandItem) (patterns : List PatternRec)
    (normalize_line_endings generate_changelog : Bool)
    (template_vars : List (String × String)) (workers : Nat) (plan : Plan)
    (hok : build_plan fs todayDate todayYear source_root_raw include_rel_paths
        dest_base_raw new_project_name old_brand new_brand scrub_secrets
        brand_map patterns normalize_line_endings generate_changelog
        template_vars workers = .ok plan) :
    ∀ act ∈ plan.actions,
      (resolvePath plan.dest_root).isPrefixOf
        (resolvePath (plan.dest_base ++ act.dst)) = true := by
  unfold build_plan at hok
  dsimp only at hok
  cases hfold : foldlMExcept
      (processInclude fs (resolvePath source_root_raw) (resolvePath dest_base_raw)
        (pathJoin (resolvePath dest_base_raw) new_project_name))
      ([], []) include_rel_paths with
  | error e => rw [hfold] at hok; exact absurd hok (by simp)
  | ok aw =>
    rw [hfold] at hok
    have hplan := (Except.ok.inj hok).symm
    have hactions : plan.actions = aw.1 := by rw [hplan]
    have hbase : plan.dest_base = resolvePath dest_base_raw := by rw [hplan]
    have hroot : plan.dest_root
        = pathJoin (resolvePath dest_base_raw) new_project_name := by rw [hplan]
    intro act hact
    rw [hactions] at hact
    have hok' := foldlMExcept_processInclude hwf include_rel_paths ([], []) aw
      (by simp) hfold act hact
    rw [hbase, hroot]
    exact actionOk_dest hok'

/-- Filesystem for the C8 witness: one source file under `/sp`, destination
base `/db`. -/
def fsBuildW : FS := ⟨[[], ["sp"], ["db"]], [(["sp", "a.txt"], Bytes.text "x")]⟩

/-- The plan `build_plan` produces on `fsBuildW`. -/
def planBuildW : Plan :=
  ⟨["sp"], ["db"], ["db", "np"], "np", "", "", false, [],
   [⟨"copy", ["a.txt"], ["np", "a.txt"], true⟩], [], [], true, true,
   [("PROJECT_NAME", "np"), ("DATE", "D"), ("YEAR", "Y"), ("SOURCE_PROJECT", "sp")],
   4, false, false⟩

/-- C8 witness: the invariant instantiated on a concrete one-file build. -/
theorem build_plan_dest_within_root_witness :
    fsBuildW.wf
    ∧ build_plan fsBuildW "D" "Y" ["sp"] ["a.txt"] ["db"] "np" "" "" false [] []
        true true [] 4 = .ok planBuildW
    ∧ (∀ act ∈ planBuildW.actions,
        (resolvePath planBuildW.dest_root).isPrefixOf
          (resolvePath (planBuildW.dest_base ++ act.dst)) = true) :=
  ⟨by decide, by decide,
   build_plan_dest_within_root fsBuildW (by decide) "D" "Y" ["sp"] ["a.txt"]
     ["db"] "np" "" "" false [] [] true true [] 4 planBuildW (by decide)⟩

/-! ## HTTP-handler validation theorems (C4) -/

/-- Filesystem for the handler runs: working directory `/home`, a valid
source project `/proj` with one file. -/
def fsHandler : FS := ⟨[[], ["home"], ["proj"]], [(["proj", "a.txt"], Bytes.text "hi")]⟩

/-- A request that is valid except that `dest_path` is missing. -/
def reqMissingDest : PlanRequest :=
  ⟨some "/proj", ["a.txt"], some "NewApp", none, none, false, none, [], [], false, false⟩

/-- C4 counterexample: with a missing destination (and everything else
valid) `_handle_plan` does not return the `dest_path required` error — it
builds and returns a Plan, with `dest_base` silently resolved to the
working directory.  The claim that an input-validation error is returned
before any Plan is built in the missing-destination case is therefore
false. -/
theorem handle_plan_missing_dest_builds_plan :
    reqMissingDest.dest_path = none
    ∧ PlanResponse.isPlan (handle_plan fsHandler ["home"] "D" "Y" reqMissingDest) = true := by
  refine ⟨rfl, by decide⟩

/-- C4 (amended): the validation behaviour `_handle_plan` actually has.
(1) A source path whose resolution is not an existing directory yields the
400 `Invalid source_path` error (a *missing* source path resolves to the
working directory, so it only errors when that is not a directory);
(2) an empty include list yields the 400 `include_paths array required`
error; (3) a project name that is present but strips to whitespace yields
the 400 `new_project_name required` error (a missing name silently
defaults to `NewProject`); (4) the `dest_path required` error is
unreachable: `bool(Path(...))` is always `True`, so no request ever
receives it, and a missing destination silently resolves to the working
directory.  In every error case the response carries no Plan. -/
theorem handle_plan_validation (fs : FS) (cwd : FsPath) (dte yr : String)
    (req : PlanRequest) :
    (fs.isDir (resolvePathStr cwd (req.source_path.getD "")) = false →
      handle_plan fs cwd dte yr req
        = .err ("Invalid source_path: "
            ++ renderPath (resolvePathStr cwd (req.source_path.getD ""))) 400)
    ∧ (fs.isDir (resolvePathStr cwd (req.source_path.getD "")) = true →
        req.include_paths = [] →
        handle_plan fs cwd dte yr req = .err "include_paths array required" 400)
    ∧ (fs.isDir (resolvePathStr cwd (req.source_path.getD "")) = true →
        req.include_paths ≠ [] →
        pyStrip (orDefault req.new_project_name "NewProject") = "" →
        handle_plan fs cwd dte yr req = .err "new_project_name required" 400)
    ∧ handle_plan fs cwd dte yr req ≠ .err "dest_path required" 400 := by
  refine ⟨?_, ?_, ?_, ?_⟩
  · intro hdir
    unfold handle_plan
    rw [if_pos]
    rw [Bool.or_eq_true]
    right
    rw [hdir]
    rfl
  · intro hdir hinc
    unfold handle_plan
    rw [if_neg, if_pos hinc]
    rw [Bool.or_eq_true]
    push_neg
    constructor
    · have : fs.exists (resolvePathStr cwd (req.source_path.getD "")) = true := by
        unfold FS.exists
        rw [hdir]
        rfl
      rw [this]
      simp
    · rw [hdir]
      simp
  · intro hdir hinc hname
    unfold handle_plan
    rw [if_neg, if_neg hinc, if_pos hname]
    rw [Bool.or_eq_true]
    push_neg
    constructor
    · have : fs.exists (resolvePathStr cwd (req.source_path.getD "")) = true := by
        unfold FS.exists
        rw [hdir]
        rfl
      rw [this]
      simp
    · rw [hdir]
      simp
  · unfold handle_plan
    by_cases h1 : (!fs.exists (resolvePathStr cwd (req.source_path.getD ""))
        || !fs.isDir (resolvePathStr cwd (req.source_path.getD ""))) = true
    · rw [if_pos h1]
      intro h
      have hm := (PlanResponse.err.inj h).1
      have h2 := congrArg String.data hm
      rw [String.data_append] at h2
      simp at h2
    · rw [if_neg h1]
      by_cases h2 : req.include_paths = []
      · rw [if_pos h2]
        intro h
        have hm := (PlanResponse.err.inj h).1
        simp at hm
      · rw [if_neg h2]
        by_cases h3 : pyStrip (orDefault req.new_project_name "NewProject") = ""
        · rw [if_pos h3]
          intro h
          have hm := (PlanResponse.err.inj h).1
          simp at hm
        · rw [if_neg h3]
          rw [if_neg (by simp [pathFalsy])]
          cases hb : build_plan fs dte yr (resolvePathStr cwd (req.source_path.getD ""))
              req.include_paths (resolvePathStr cwd (req.dest_path.getD ""))
              (pyStrip (orDefault req.new_project_name "NewProject"))
              (orDefault req.old_brand "OldBrand") (orDefault req.new_brand "NewBrand")
              req.scrub_secrets req.brand_map req.patterns true true [] 4 with
          | error e =>
            intro h
            have hs := (PlanResponse.err.inj h).2
            omega
          | ok p =>
            intro h
            exact absurd h (by simp)

/-- C4 witness: the amended validation rules instantiated — an invalid
(non-directory) source path yields the 400 error on a concrete
filesystem. -/
theorem handle_plan_validation_witness :
    fsHandler.isDir (resolvePathStr ["home"]
        ((some "/nosuch" : Option String).getD "")) = false
    ∧ handle_plan fsHandler ["home"] "D" "Y"
        ⟨some "/nosuch", ["a.txt"], some "NewApp", none, none, false,
         some "/dest", [], [], false, false⟩
      = .err ("Invalid source_path: "
          ++ renderPath (resolvePathStr ["home"]
              ((some "/nosuch" : Option String).getD ""))) 400 :=
  ⟨by decide,
   (handle_plan_validation fsHandler ["home"] "D" "Y"
      ⟨some "/nosuch", ["a.txt"], some "NewApp", none, none, false,
       some "/dest", [], [], false, false⟩).1 (by decide)⟩

end XV
